import Mathlib

/-!
Verification of the medical reading query and aggregation engine of the
`aiss` repository (`Project/HealthBotV2`), shallowly embedded in Lean.

Conventions of the embedding:

* SQL / Python `datetime` timestamps are modelled as epoch seconds (`ℤ`)
  where only ordering and `timedelta` arithmetic matter, and as civil
  `(year, month, day, hour, minute, second)` records where the calendar
  structure matters (month windows, time-of-day casts).
* Numeric reading values stored in the database are modelled as integers;
  a nullable column is an `Option`, and as an `ORDER BY` key NULL sorts
  below every value (`WithBot`), as MySQL does.
* Python float arithmetic is modelled bit-exactly where it is load-bearing:
  IEEE-754 double rounding (round to 53 significant bits, ties to even,
  which is exact on the normal range exercised here) is reproduced on
  unnormalised fractions over `ℤ`.
* SQL `ORDER BY k LIMIT n` is modelled as a stable sort by `k` followed by
  `List.take n`; ties are broken by original order, which the spec leaves
  arbitrary.
* Python truthiness of optional arguments is modelled explicitly.
-/

namespace Aiss

/-! ### Generic ordering helpers for `ORDER BY` -/

/-- `ORDER BY f DESC`: row `a` may come before `b` when `f b ≤ f a`. -/
def byDesc {α β : Type} [LinearOrder β] (f : α → β) : α → α → Prop :=
  fun a b => f b ≤ f a

/-- `ORDER BY f ASC`: row `a` may come before `b` when `f a ≤ f b`. -/
def byAsc {α β : Type} [LinearOrder β] (f : α → β) : α → α → Prop :=
  fun a b => f a ≤ f b

instance {α β : Type} [LinearOrder β] (f : α → β) : DecidableRel (byDesc f) :=
  fun a b => inferInstanceAs (Decidable (f b ≤ f a))

instance {α β : Type} [LinearOrder β] (f : α → β) : DecidableRel (byAsc f) :=
  fun a b => inferInstanceAs (Decidable (f a ≤ f b))

instance {α β : Type} [LinearOrder β] (f : α → β) : IsTotal α (byDesc f) :=
  ⟨fun a b => le_total (f b) (f a)⟩

instance {α β : Type} [LinearOrder β] (f : α → β) : IsTotal α (byAsc f) :=
  ⟨fun a b => le_total (f a) (f b)⟩

instance {α β : Type} [LinearOrder β] (f : α → β) : IsTrans α (byDesc f) :=
  ⟨fun _ _ _ h1 h2 => le_trans h2 h1⟩

instance {α β : Type} [LinearOrder β] (f : α → β) : IsTrans α (byAsc f) :=
  ⟨fun _ _ _ h1 h2 => le_trans h1 h2⟩

/-- The head of a list sorted descending by `f` carries the maximum key. -/
theorem sortDesc_head_max {α β : Type} [LinearOrder β] (f : α → β) (l : List α) (m : α)
    (hm : (List.insertionSort (byDesc f) l).head? = some m) :
    m ∈ l ∧ ∀ y ∈ l, f y ≤ f m := by
  have hs := List.sorted_insertionSort (byDesc f) l
  have hp := List.perm_insertionSort (byDesc f) l
  cases hsort : List.insertionSort (byDesc f) l with
  | nil => rw [hsort] at hm; cases hm
  | cons a t =>
    rw [hsort] at hm hs hp
    have hma : a = m := by simpa using hm
    subst hma
    refine ⟨hp.mem_iff.mp (List.mem_cons_self _ _), fun y hy => ?_⟩
    have hy2 : y ∈ a :: t := hp.mem_iff.mpr hy
    rcases List.mem_cons.mp hy2 with h | h
    · subst h; exact le_rfl
    · exact (List.sorted_cons.mp hs).1 y h

/-- The head of a list sorted ascending by `f` carries the minimum key. -/
theorem sortAsc_head_min {α β : Type} [LinearOrder β] (f : α → β) (l : List α) (m : α)
    (hm : (List.insertionSort (byAsc f) l).head? = some m) :
    m ∈ l ∧ ∀ y ∈ l, f m ≤ f y := by
  have hs := List.sorted_insertionSort (byAsc f) l
  have hp := List.perm_insertionSort (byAsc f) l
  cases hsort : List.insertionSort (byAsc f) l with
  | nil => rw [hsort] at hm; cases hm
  | cons a t =>
    rw [hsort] at hm hs hp
    have hma : a = m := by simpa using hm
    subst hma
    refine ⟨hp.mem_iff.mp (List.mem_cons_self _ _), fun y hy => ?_⟩
    have hy2 : y ∈ a :: t := hp.mem_iff.mpr hy
    rcases List.mem_cons.mp hy2 with h | h
    · subst h; exact le_rfl
    · exact (List.sorted_cons.mp hs).1 y h

/-- Taking a prefix preserves sortedness. -/
theorem sorted_take {α : Type} {r : α → α → Prop} {l : List α} (h : List.Sorted r l)
    (n : ℕ) : List.Sorted r (l.take n) :=
  List.Pairwise.sublist (List.take_sublist n l) h

/-- A positive-length prefix has the same head as the list. -/
theorem head_take {α : Type} (l : List α) {n : ℕ} (hn : 0 < n) :
    (l.take n).head? = l.head? := by
  cases l with
  | nil => simp
  | cons a t =>
    cases n with
    | zero => exact absurd hn (by simp)
    | succ k => simp [List.take]

/-- A nonempty list keeps a nonempty sorted permutation, hence a head. -/
theorem head_isSome_of_perm {α : Type} {l s : List α} (hp : s.Perm l) (h : l ≠ []) :
    ∃ m, s.head? = some m := by
  cases s with
  | nil => exact absurd hp.symm.eq_nil h
  | cons a t => exact ⟨a, rfl⟩

/-! ### Character-level models of the Python string operations -/

/-- ASCII lowercasing of one character (`str.lower`, SQL `ILIKE` folding). -/
def lowerChar (c : Char) : Char :=
  if 'A' ≤ c ∧ c ≤ 'Z' then Char.ofNat (c.toNat + 32) else c

/-- Whitespace as recognised by Python's `str.strip` / `str.split`
(ASCII subset; the stored names are ASCII). -/
def isWS (c : Char) : Bool := c = ' ' ∨ c = '\t' ∨ c = '\n' ∨ c = '\r'

/-- `str.strip()`: drop whitespace at both ends. -/
def dropWSEnds (l : List Char) : List Char :=
  ((l.dropWhile isWS).reverse.dropWhile isWS).reverse

/-- Helper of `pyTokens`: split on whitespace runs, discarding empty pieces,
accumulating the current token in reverse. -/
def splitWSAux : List Char → List Char → List (List Char)
  | [], acc => if acc.isEmpty then [] else [acc.reverse]
  | c :: cs, acc =>
    if isWS c then (if acc.isEmpty then splitWSAux cs [] else acc.reverse :: splitWSAux cs [])
    else splitWSAux cs (c :: acc)

/-- `str.split()` with no separator: whitespace-run tokenisation. -/
def pyTokens (l : List Char) : List (List Char) := splitWSAux l []

/-- Does `l` start with `p`? -/
def startsWithL : List Char → List Char → Bool
  | [], _ => true
  | _ :: _, [] => false
  | a :: p, b :: l => a = b && startsWithL p l

/-- Substring containment of `pat` in the second list. -/
def containsL (pat : List Char) : List Char → Bool
  | [] => pat.isEmpty
  | c :: t => startsWithL pat (c :: t) || containsL pat t

/-- SQL `column ILIKE '%pat%'`: case-insensitive substring containment. -/
def ilike_contains (col : String) (pat : List Char) : Bool :=
  containsL (pat.map lowerChar) (col.data.map lowerChar)

/-! ### Patient resolver (`dal/services/base_service.py`, lines 19-58) -/

/-- `Users` row (`dal/models/users.py`): the fields the resolver reads. -/
structure User where
  id : ℤ
  first_name : String
  last_name : String
deriving DecidableEq

/-- Python truthiness of the optional integer `patient_id` argument. -/
def truthyId : Option ℤ → Bool
  | none => false
  | some n => n != 0

/-- Python truthiness of the optional string `patient_name` argument. -/
def truthyStr : Option String → Bool
  | none => false
  | some s => !s.data.isEmpty

/-- `BaseService.find_patient_by_name_or_id`: `users` is the store's natural
return order; returns the original `patient_id` when the name search is not
taken or finds nothing. -/
def find_patient_by_name_or_id (users : List User) (patient_id : Option ℤ)
    (patient_name : Option String) : Option ℤ :=
  if truthyStr patient_name && !truthyId patient_id then
    let name_lower : List Char := dropWSEnds ((patient_name.getD "").data.map lowerChar)
    let name_parts : List (List Char) := pyTokens name_lower
    let matched : List User :=
      if 2 ≤ name_parts.length then
        let first_part := name_parts.headD []
        let last_part := name_parts.getLastD []
        let users1 := users.filter fun u =>
          ilike_contains u.first_name first_part && ilike_contains u.last_name last_part
        if users1.isEmpty then
          users.filter fun u =>
            ilike_contains u.first_name name_lower || ilike_contains u.last_name name_lower ||
              ilike_contains (u.first_name ++ " " ++ u.last_name) name_lower
        else users1
      else
        users.filter fun u =>
          ilike_contains u.first_name name_lower || ilike_contains u.last_name name_lower
    match matched with
    | u :: _ => some u.id
    | [] => patient_id
  else patient_id

/-- The resolution policy as the specification words it (spec §4.1): a
two-or-more token name first matches first token against first name AND last
token against last name; on zero matches it falls back to an OR-substring
match of the whole name against first, last, or "first last"; a single-token
name is OR-matched against first or last name; `none` is not-found. -/
def resolve_by_name_spec (users : List User) (name : String) : Option ℤ :=
  let norm := dropWSEnds (name.data.map lowerChar)
  let tokens := pyTokens norm
  if 2 ≤ tokens.length then
    match users.filter (fun u =>
        ilike_contains u.first_name (tokens.headD []) &&
          ilike_contains u.last_name (tokens.getLastD [])) with
    | u :: _ => some u.id
    | [] =>
      match users.filter (fun u =>
          ilike_contains u.first_name norm || ilike_contains u.last_name norm ||
            ilike_contains (u.first_name ++ " " ++ u.last_name) norm) with
      | u :: _ => some u.id
      | [] => none
  else if tokens.length = 1 then
    match users.filter (fun u =>
        ilike_contains u.first_name norm || ilike_contains u.last_name norm) with
    | u :: _ => some u.id
    | [] => none
  else none

/-- A name whose lowered, stripped form still tokenises is a nonempty string. -/
theorem name_data_ne_nil_of_tokens {name : String}
    (htok : pyTokens (dropWSEnds (name.data.map lowerChar)) ≠ []) :
    name.data.isEmpty = false := by
  cases hd : name.data with
  | nil => exact absurd (by simp [pyTokens, dropWSEnds, splitWSAux, hd]) htok
  | cons a t => rfl

/-- C8: with no patient id supplied, a name of two or more whitespace tokens
is first matched by case-insensitive substring of its first token against
first name AND its last token against last name; on zero matches it falls
back to an OR-substring match of the whole name against first name, last
name, or "first last"; a single-token name is OR-substring matched against
first or last name; the first user in store order wins on multiple matches;
no input or no match resolves to not-found (`none`). -/
theorem C8_patient_name_resolution (users : List User) (name : String)
    (htok : pyTokens (dropWSEnds (name.data.map lowerChar)) ≠ []) :
    find_patient_by_name_or_id users none (some name) = resolve_by_name_spec users name
    ∧ find_patient_by_name_or_id users none none = none := by
  refine ⟨?_, rfl⟩
  have hne := name_data_ne_nil_of_tokens htok
  unfold find_patient_by_name_or_id resolve_by_name_spec
  simp only [truthyStr, truthyId, hne, Option.getD, Bool.not_false, Bool.and_self, if_true,
    Bool.not_true, Bool.and_false, bne_self_eq_false]
  by_cases h2 : 2 ≤ (pyTokens (dropWSEnds (name.data.map lowerChar))).length
  · simp only [h2, if_true]
    cases hf1 : users.filter (fun u =>
        ilike_contains u.first_name ((pyTokens (dropWSEnds (name.data.map lowerChar))).headD []) &&
          ilike_contains u.last_name ((pyTokens (dropWSEnds (name.data.map lowerChar))).getLastD [])) with
    | cons u rest => simp [hf1]
    | nil => simp only [hf1, List.isEmpty_nil, if_true]
  · have h1 : (pyTokens (dropWSEnds (name.data.map lowerChar))).length = 1 := by
      have hpos : 0 < (pyTokens (dropWSEnds (name.data.map lowerChar))).length :=
        List.length_pos.mpr htok
      omega
    simp only [h2, if_false, h1, if_true]
    cases hf : users.filter (fun u =>
        ilike_contains u.first_name (dropWSEnds (name.data.map lowerChar)) ||
          ilike_contains u.last_name (dropWSEnds (name.data.map lowerChar))) with
    | cons u rest => simp [hf]
    | nil => simp [hf]

/-- Witness for C8 at a concrete store and name. -/
theorem C8_patient_name_resolution_witness :
    find_patient_by_name_or_id
        [⟨7, "Anna", "Smith"⟩, ⟨132, "Rayudu", "Valluri"⟩] none (some "  Ray VALLURI ") =
      resolve_by_name_spec [⟨7, "Anna", "Smith"⟩, ⟨132, "Rayudu", "Valluri"⟩] "  Ray VALLURI " :=
  (C8_patient_name_resolution _ _ (by decide)).1

/-! ### Civil datetimes and the date-filter window
(`dal/services/medical_readings_service.py`, lines 71-102) -/

/-- A naive Python `datetime`, as civil fields. -/
structure CivilDT where
  year : ℤ
  month : ℕ
  day : ℕ
  hour : ℕ
  minute : ℕ
  second : ℕ
deriving DecidableEq

/-- Python `calendar.isleap` (Gregorian rule). -/
def isleap (y : ℤ) : Bool := y % 4 == 0 && (y % 100 != 0 || y % 400 == 0)

/-- `calendar.monthrange(year, month)[1]`: number of days in the month
(defined for `month ∈ 1..12`; `monthrange` raises otherwise). -/
def monthrange_days (y : ℤ) (m : ℕ) : ℕ :=
  if m = 2 then (if isleap y then 29 else 28)
  else if m = 4 ∨ m = 6 ∨ m = 9 ∨ m = 11 then 30 else 31

/-- Chronological `≤` on naive datetimes: field-lexicographic. -/
def civilLE (a b : CivilDT) : Bool :=
  if a.year ≠ b.year then a.year < b.year
  else if a.month ≠ b.month then a.month < b.month
  else if a.day ≠ b.day then a.day < b.day
  else if a.hour ≠ b.hour then a.hour < b.hour
  else if a.minute ≠ b.minute then a.minute < b.minute
  else a.second ≤ b.second

/-- Chronological `<` on naive datetimes: field-lexicographic. -/
def civilLT (a b : CivilDT) : Bool :=
  if a.year ≠ b.year then a.year < b.year
  else if a.month ≠ b.month then a.month < b.month
  else if a.day ≠ b.day then a.day < b.day
  else if a.hour ≠ b.hour then a.hour < b.hour
  else if a.minute ≠ b.minute then a.minute < b.minute
  else a.second < b.second

/-- Lines 74-79: the month window of a date filter,
`datetime(year, month, 1)` through `datetime(year, month, last_day, 23, 59, 59)`
with `last_day = monthrange(year, month)[1]`. -/
def month_window (date_filter : CivilDT) : CivilDT × CivilDT :=
  let year := date_filter.year
  let month := date_filter.month
  let last_day := monthrange_days year month
  (⟨year, month, 1, 0, 0, 0⟩, ⟨year, month, last_day, 23, 59, 59⟩)

/-- `date_filter + timedelta(days=1)` on civil fields (time of day kept). -/
def next_day (d : CivilDT) : CivilDT :=
  if d.day < monthrange_days d.year d.month then { d with day := d.day + 1 }
  else if d.month < 12 then { d with month := d.month + 1, day := 1 }
  else { d with year := d.year + 1, month := 1, day := 1 }

/-- `cast(sqlalchemy.Time)`: the time-of-day of a timestamp, in seconds. -/
def time_of_day (t : CivilDT) : ℕ := t.hour * 3600 + t.minute * 60 + t.second

/-- ASCII `str.lower()`. -/
def pyLower (s : String) : String := String.mk (s.data.map lowerChar)

/-- Lines 91-102: the time-range narrowing applied after a date filter.
Empty or missing `time_range`, the sleep reading type, and any value other
than morning/am/night/evening/pm leave rows unrestricted. -/
def time_range_pass (time_range : Option String) (reading_type : String) (t : CivilDT) : Bool :=
  match time_range with
  | none => true
  | some tr =>
    if tr.data.isEmpty then true
    else if reading_type = "sleep" then true
    else if pyLower tr = "morning" ∨ pyLower tr = "am" then
      decide (6 * 3600 ≤ time_of_day t) && decide (time_of_day t ≤ 12 * 3600)
    else if pyLower tr = "night" ∨ pyLower tr = "evening" ∨ pyLower tr = "pm" then
      decide (18 * 3600 ≤ time_of_day t) && decide (time_of_day t ≤ 23 * 3600 + 59 * 60)
    else true

/-- Lines 71-102, `elif date_filter:` branch: whether a row timestamp `t`
survives the date filter (month or day window) plus time-range narrowing. -/
def date_filter_pass (date_filter : CivilDT) (month_filter : Bool)
    (time_range : Option String) (reading_type : String) (t : CivilDT) : Bool :=
  (if month_filter then
      civilLE (month_window date_filter).1 t && civilLE t (month_window date_filter).2
    else
      civilLE date_filter t && civilLT t (next_day date_filter))
    && time_range_pass time_range reading_type t

/-- C6: a month-form date filter resolves to the window from the first day of
the month at 00:00:00 through the last calendar day at 23:59:59, the last day
coming from days-in-month, so February ends on the 28th in non-leap years
(2025-02-28T23:59:59) and on the 29th in leap years (2024-02-29T23:59:59). -/
theorem C6_month_window_resolution (d : CivilDT) :
    (month_window d).1 = ⟨d.year, d.month, 1, 0, 0, 0⟩
    ∧ (month_window d).2 = ⟨d.year, d.month, monthrange_days d.year d.month, 23, 59, 59⟩
    ∧ (d.month = 2 → isleap d.year = false → (month_window d).2.day = 28)
    ∧ (d.month = 2 → isleap d.year = true → (month_window d).2.day = 29)
    ∧ (month_window ⟨2025, 2, 1, 0, 0, 0⟩).2 = ⟨2025, 2, 28, 23, 59, 59⟩
    ∧ (month_window ⟨2024, 2, 1, 0, 0, 0⟩).2 = ⟨2024, 2, 29, 23, 59, 59⟩ := by
  refine ⟨rfl, rfl, ?_, ?_, by decide, by decide⟩
  · intro hm hl
    simp [month_window, monthrange_days, hm, hl]
  · intro hm hl
    simp [month_window, monthrange_days, hm, hl]

/-- Witness for C6: February 2025 (not a leap year) ends on day 28. -/
theorem C6_month_window_resolution_witness :
    (month_window ⟨2025, 2, 14, 6, 30, 0⟩).2.day = 28 :=
  (C6_month_window_resolution ⟨2025, 2, 14, 6, 30, 0⟩).2.2.1 rfl (by decide)

/-- C10: with a month-form date filter on a non-sleep reading type, the
morning/am narrowing (time of day in [06:00, 12:00]) and the
night/evening/pm narrowing ([18:00, 23:59]) are applied on top of the month
window — narrowing is not limited to day windows — while an afternoon
time range applies no narrowing at all. -/
theorem C10_time_range_applies_to_month_windows (d : CivilDT) (rt : String)
    (hrt : rt ≠ "sleep") (t : CivilDT) :
    (date_filter_pass d true (some "morning") rt t =
      (date_filter_pass d true none rt t &&
        (decide (6 * 3600 ≤ time_of_day t) && decide (time_of_day t ≤ 12 * 3600))))
    ∧ (date_filter_pass d true (some "am") rt t = date_filter_pass d true (some "morning") rt t)
    ∧ (date_filter_pass d true (some "night") rt t =
      (date_filter_pass d true none rt t &&
        (decide (18 * 3600 ≤ time_of_day t) && decide (time_of_day t ≤ 23 * 3600 + 59 * 60))))
    ∧ (date_filter_pass d true (some "evening") rt t = date_filter_pass d true (some "night") rt t)
    ∧ (date_filter_pass d true (some "pm") rt t = date_filter_pass d true (some "night") rt t)
    ∧ (date_filter_pass d true (some "afternoon") rt t = date_filter_pass d true none rt t) := by
  have hmor : time_range_pass (some "morning") rt t =
      (decide (6 * 3600 ≤ time_of_day t) && decide (time_of_day t ≤ 12 * 3600)) := by
    simp only [time_range_pass]
    rw [if_neg (by decide), if_neg hrt, if_pos (Or.inl (by decide))]
  have ham : time_range_pass (some "am") rt t =
      (decide (6 * 3600 ≤ time_of_day t) && decide (time_of_day t ≤ 12 * 3600)) := by
    simp only [time_range_pass]
    rw [if_neg (by decide), if_neg hrt, if_pos (Or.inr (by decide))]
  have hnight : time_range_pass (some "night") rt t =
      (decide (18 * 3600 ≤ time_of_day t) && decide (time_of_day t ≤ 23 * 3600 + 59 * 60)) := by
    simp only [time_range_pass]
    rw [if_neg (by decide), if_neg hrt, if_neg (by decide), if_pos (Or.inl (by decide))]
  have heve : time_range_pass (some "evening") rt t =
      (decide (18 * 3600 ≤ time_of_day t) && decide (time_of_day t ≤ 23 * 3600 + 59 * 60)) := by
    simp only [time_range_pass]
    rw [if_neg (by decide), if_neg hrt, if_neg (by decide), if_pos (Or.inr (Or.inl (by decide)))]
  have hpm : time_range_pass (some "pm") rt t =
      (decide (18 * 3600 ≤ time_of_day t) && decide (time_of_day t ≤ 23 * 3600 + 59 * 60)) := by
    simp only [time_range_pass]
    rw [if_neg (by decide), if_neg hrt, if_neg (by decide), if_pos (Or.inr (Or.inr (by decide)))]
  have haft : time_range_pass (some "afternoon") rt t = true := by
    simp only [time_range_pass]
    rw [if_neg (by decide), if_neg hrt, if_neg (by decide), if_neg (by decide)]
  have hnone : time_range_pass none rt t = true := rfl
  refine ⟨?_, ?_, ?_, ?_, ?_, ?_⟩ <;>
    simp only [date_filter_pass, hmor, ham, hnight, heve, hpm, haft, hnone, Bool.and_true,
      Bool.and_assoc]

/-- Witness for C10: a mid-month 14:00 timestamp with an afternoon time range
on a glucose month query. -/
theorem C10_time_range_applies_to_month_windows_witness :
    date_filter_pass ⟨2025, 7, 1, 0, 0, 0⟩ true (some "afternoon") "glucose"
        ⟨2025, 7, 16, 14, 0, 0⟩ =
      date_filter_pass ⟨2025, 7, 1, 0, 0, 0⟩ true none "glucose" ⟨2025, 7, 16, 14, 0, 0⟩ :=
  (C10_time_range_applies_to_month_windows ⟨2025, 7, 1, 0, 0, 0⟩ "glucose" (by decide)
    ⟨2025, 7, 16, 14, 0, 0⟩).2.2.2.2.2

/-! ### Sleep rows and `_process_sleep_data`
(`dal/services/medical_readings_service.py`, lines 136-199) -/

/-- `SleepReadingsDetails` row (`dal/models/sleep_readings_details.py`):
the fields the aggregation reads. `date` is epoch seconds; the nullable
Float `value` column (minutes) is modelled as a nullable integer. -/
structure SleepRow where
  date : ℤ
  sleep_type : Option String
  value : Option ℤ
  level : Option ℤ
  patient_id : ℤ
deriving DecidableEq

/-- Line 148: `getattr(reading, 'value', 0) or 0`. -/
def sleep_value (r : SleepRow) : ℤ := r.value.getD 0

/-- Lines 140-145: the per-level minute buckets. -/
structure SleepBreakdown where
  deep_sleep : ℤ
  light_sleep : ℤ
  rem_sleep : ℤ
  awake : ℤ
deriving DecidableEq

/-- One iteration of the `for reading in readings` loop (lines 147-164):
the total gains `value` for positive values at levels 0-2; the breakdown
gains `value` at its level bucket for levels 0-3; anything else changes
nothing. -/
def sleep_step (acc : ℤ × SleepBreakdown) (r : SleepRow) : ℤ × SleepBreakdown :=
  let v := sleep_value r
  let lvl := r.level
  let total :=
    if 0 < v ∧ (lvl = some 0 ∨ lvl = some 1 ∨ lvl = some 2) then acc.1 + v else acc.1
  let b := acc.2
  let b2 :=
    if lvl = some 0 then { b with deep_sleep := b.deep_sleep + v }
    else if lvl = some 1 then { b with light_sleep := b.light_sleep + v }
    else if lvl = some 2 then { b with rem_sleep := b.rem_sleep + v }
    else if lvl = some 3 then { b with awake := b.awake + v }
    else b
  (total, b2)

/-- `total_sleep_minutes` after the loop of `_process_sleep_data`. -/
def total_sleep_minutes (readings : List SleepRow) : ℤ :=
  (readings.foldl sleep_step (0, ⟨0, 0, 0, 0⟩)).1

/-- `sleep_breakdown` after the loop of `_process_sleep_data`. -/
def sleep_breakdown (readings : List SleepRow) : SleepBreakdown :=
  (readings.foldl sleep_step (0, ⟨0, 0, 0, 0⟩)).2

/-- A row whose `level` is one of the four recognised sleep stages. -/
def recognised_level (r : SleepRow) : Bool :=
  r.level == some 0 || r.level == some 1 || r.level == some 2 || r.level == some 3

/-- A row with an unrecognised (or missing) level leaves the loop state
unchanged. -/
theorem sleep_step_unrecognised (acc : ℤ × SleepBreakdown) (r : SleepRow)
    (h : recognised_level r = false) : sleep_step acc r = acc := by
  simp only [recognised_level, Bool.or_eq_false_iff, beq_eq_false_iff_ne, ne_eq] at h
  obtain ⟨⟨⟨h0, h1⟩, h2⟩, h3⟩ := h
  simp [sleep_step, h0, h1, h2, h3]

/-- Rows with unrecognised levels can be dropped without changing the fold. -/
theorem sleep_fold_filter (readings : List SleepRow) :
    ∀ acc, (readings.filter recognised_level).foldl sleep_step acc =
      readings.foldl sleep_step acc := by
  induction readings with
  | nil => intro acc; rfl
  | cons r rs ih =>
    intro acc
    by_cases h : recognised_level r
    · rw [List.filter_cons_of_pos h, List.foldl_cons, List.foldl_cons, ih]
    · rw [List.filter_cons_of_neg (by simpa using h), List.foldl_cons,
        sleep_step_unrecognised acc r (by simpa using h), ih]

/-- With nonnegative values, each step moves the total and the asleep-stage
buckets in lock-step. -/
theorem sleep_fold_delta (readings : List SleepRow) :
    ∀ acc : ℤ × SleepBreakdown, (∀ r ∈ readings, 0 ≤ sleep_value r) →
      (readings.foldl sleep_step acc).1 +
          (acc.2.deep_sleep + acc.2.light_sleep + acc.2.rem_sleep) =
        acc.1 + ((readings.foldl sleep_step acc).2.deep_sleep +
          (readings.foldl sleep_step acc).2.light_sleep +
          (readings.foldl sleep_step acc).2.rem_sleep) := by
  induction readings with
  | nil => intro acc _; simp
  | cons r rs ih =>
    intro acc hnn
    have hv : 0 ≤ sleep_value r := hnn r (List.mem_cons_self _ _)
    have htail := ih (sleep_step acc r) (fun x hx => hnn x (List.mem_cons_of_mem _ hx))
    rw [List.foldl_cons]
    have hstep : (sleep_step acc r).1 +
        (acc.2.deep_sleep + acc.2.light_sleep + acc.2.rem_sleep) =
        acc.1 + ((sleep_step acc r).2.deep_sleep + (sleep_step acc r).2.light_sleep +
          (sleep_step acc r).2.rem_sleep) := by
      simp only [sleep_step]
      split_ifs <;> simp_all <;> omega
    omega

/-- The awake bucket never decreases when values are nonnegative. -/
theorem sleep_fold_awake_mono (readings : List SleepRow) :
    ∀ acc : ℤ × SleepBreakdown, (∀ r ∈ readings, 0 ≤ sleep_value r) →
      acc.2.awake ≤ (readings.foldl sleep_step acc).2.awake := by
  induction readings with
  | nil => intro acc _; exact le_rfl
  | cons r rs ih =>
    intro acc hnn
    have hv : 0 ≤ sleep_value r := hnn r (List.mem_cons_self _ _)
    have htail := ih (sleep_step acc r) (fun x hx => hnn x (List.mem_cons_of_mem _ hx))
    rw [List.foldl_cons]
    have hstep : acc.2.awake ≤ (sleep_step acc r).2.awake := by
      simp only [sleep_step]
      split_ifs <;> simp_all
    omega

/-! ### Bit-exact model of the float duration rendering
(`_process_sleep_data`, lines 175-186) -/

/-- An unnormalised fraction `num / den` with positive denominator, used to
evaluate the Python float pipeline exactly. -/
structure Frac where
  num : ℤ
  den : ℤ
deriving DecidableEq

/-- Exact embedding of an integer. -/
def fOfInt (n : ℤ) : Frac := ⟨n, 1⟩

/-- Negation. -/
def fNeg (x : Frac) : Frac := ⟨-x.num, x.den⟩

/-- Exact product. -/
def fMul (x y : Frac) : Frac := ⟨x.num * y.num, x.den * y.den⟩

/-- Exact difference. -/
def fSub (x y : Frac) : Frac := ⟨x.num * y.den - y.num * x.den, x.den * y.den⟩

/-- Exact quotient (used with positive divisors only). -/
def fDiv (x y : Frac) : Frac := ⟨x.num * y.den, x.den * y.num⟩

/-- `x < y` by cross multiplication (positive denominators). -/
def fLT (x y : Frac) : Bool := x.num * y.den < y.num * x.den

/-- `⌊x⌋` (positive denominator). -/
def fFloor (x : Frac) : ℤ := x.num.fdiv x.den

/-- Python `int(x)`: truncation toward zero (positive denominator). -/
def fTrunc (x : Frac) : ℤ := Int.tdiv x.num x.den

/-- `2 ^ m` as a fraction. -/
def fPow2 (m : ℤ) : Frac :=
  if 0 ≤ m then ⟨((2 ^ m.toNat : ℕ) : ℤ), 1⟩ else ⟨1, ((2 ^ (-m).toNat : ℤ))⟩

/-- `⌊log₂ y⌋` for positive `y` within the double exponent range exercised
here (|exponent| < 90). -/
def fLog2 (y : Frac) : ℤ :=
  match (List.range 181).find? (fun k : ℕ => fLT y (fPow2 ((k : ℤ) - 90 + 1))) with
  | some k => (k : ℤ) - 90
  | none => 90

/-- Round to the nearest integer, ties to even (positive denominator). -/
def rne (x : Frac) : ℤ :=
  let f := fFloor x
  let r := x.num - f * x.den
  if 2 * r < x.den then f
  else if x.den < 2 * r then f + 1
  else if f % 2 = 0 then f else f + 1

/-- Round a positive fraction to 53 significant bits, nearest, ties even. -/
def roundPos (y : Frac) : Frac :=
  let e := fLog2 y
  let g := fPow2 (e - 52)
  fMul (fOfInt (rne (fDiv y g))) g

/-- IEEE-754 binary64 rounding of an exact rational value (normal range;
overflow and subnormals do not occur in the quantities modelled here). -/
def roundDouble (x : Frac) : Frac :=
  if x.num = 0 then ⟨0, 1⟩
  else if x.num < 0 then fNeg (roundPos (fNeg x))
  else roundPos x

/-- Python float division. -/
def pfDiv (a b : Frac) : Frac := roundDouble (fDiv a b)

/-- Python float subtraction. -/
def pfSub (a b : Frac) : Frac := roundDouble (fSub a b)

/-- Python float multiplication. -/
def pfMul (a b : Frac) : Frac := roundDouble (fMul a b)

/-- Line 175: `total_sleep_hours = total_sleep_minutes / 60.0`. -/
def py_total_sleep_hours (M : ℤ) : Frac := pfDiv (fOfInt M) (fOfInt 60)

/-- Line 176: `hours = int(total_sleep_hours)`. -/
def py_hours (M : ℤ) : ℤ := fTrunc (py_total_sleep_hours M)

/-- Line 177: `remaining_minutes = int((total_sleep_hours - hours) * 60)`. -/
def py_remaining_minutes (M : ℤ) : ℤ :=
  fTrunc (pfMul (pfSub (py_total_sleep_hours M) (fOfInt (py_hours M))) (fOfInt 60))

/-- Line 186: the rendered `total_sleep_duration` string. -/
def total_sleep_duration (M : ℤ) : String :=
  let h := py_hours M
  let r := py_remaining_minutes M
  if 0 < r then s!"{h} hours and {r} minutes" else s!"{h} hours"

set_option maxRecDepth 10000 in
/-- C7: at 61 total sleep minutes (a 60-minute deep row plus a 1-minute
light row) the float pipeline computes `61/60 - 1 = 0.016666666666666607`
and `… * 60 = 0.9999999999999964`, which `int()` truncates to 0, so the
code renders "1 hours" — while H = 61 / 60 = 1 and R = 61 mod 60 = 1, so
the claimed floor/mod rendering is "1 hours and 1 minutes". -/
theorem C7_duration_rendering_float_bug :
    total_sleep_minutes
        [⟨0, some "deep", some 60, some 0, 111⟩, ⟨0, some "light", some 1, some 1, 111⟩] = 61
    ∧ py_hours 61 = 1 ∧ py_remaining_minutes 61 = 0
    ∧ total_sleep_duration 61 = "1 hours"
    ∧ (61 : ℤ) / 60 = 1 ∧ (61 : ℤ) % 60 = 1
    ∧ total_sleep_duration 61 ≠ "1 hours and 1 minutes" := by
  decide

/-! ### The sleep aggregation loop in double arithmetic
(`_process_sleep_data`, lines 147-164)

The running sums `total_sleep_minutes` and the four `sleep_breakdown`
buckets are Python floats, so every `+=` rounds its exact sum to binary64.
The integer fold `sleep_step` above is the exact image of this loop
whenever no addition overflows the doubles' exact integer range, which is
proved below (`sleep_fold_f_rel`). -/

/-- Exact sum of fractions. -/
def fAdd (x y : Frac) : Frac := ⟨x.num * y.den + y.num * x.den, x.den * y.den⟩

/-- Python float addition: exact sum, then binary64 rounding. -/
def pfAdd (a b : Frac) : Frac := roundDouble (fAdd a b)

/-- Value equality of fractions (positive denominators). -/
def fEqv (a b : Frac) : Prop := a.num * b.den = b.num * a.den

/-- Value order of fractions (positive denominators). -/
def fLeq (a b : Frac) : Prop := a.num * b.den ≤ b.num * a.den

instance (a b : Frac) : Decidable (fEqv a b) :=
  inferInstanceAs (Decidable (a.num * b.den = b.num * a.den))

instance (a b : Frac) : Decidable (fLeq a b) :=
  inferInstanceAs (Decidable (a.num * b.den ≤ b.num * a.den))

/-- The four per-stage minute buckets as doubles (lines 140-145). -/
structure FBreakdown where
  deep_sleep : Frac
  light_sleep : Frac
  rem_sleep : Frac
  awake : Frac
deriving DecidableEq

/-- One iteration of the `for reading in readings` loop (lines 147-164) in
double arithmetic: each `+=` rounds, and the row's stored (integral) value
enters as the exact double `fOfInt`. -/
def sleep_step_f (acc : Frac × FBreakdown) (r : SleepRow) : Frac × FBreakdown :=
  let v := sleep_value r
  let lvl := r.level
  let total :=
    if 0 < v ∧ (lvl = some 0 ∨ lvl = some 1 ∨ lvl = some 2) then pfAdd acc.1 (fOfInt v)
    else acc.1
  let b := acc.2
  let b2 :=
    if lvl = some 0 then { b with deep_sleep := pfAdd b.deep_sleep (fOfInt v) }
    else if lvl = some 1 then { b with light_sleep := pfAdd b.light_sleep (fOfInt v) }
    else if lvl = some 2 then { b with rem_sleep := pfAdd b.rem_sleep (fOfInt v) }
    else if lvl = some 3 then { b with awake := pfAdd b.awake (fOfInt v) }
    else b
  (total, b2)

/-- The initial loop state: the Python integer 0 is the exact double 0. -/
def sleep_init_f : Frac × FBreakdown :=
  (⟨0, 1⟩, ⟨⟨0, 1⟩, ⟨0, 1⟩, ⟨0, 1⟩, ⟨0, 1⟩⟩)

/-- `total_sleep_minutes` after the loop, as the double it is. -/
def total_sleep_minutes_f (readings : List SleepRow) : Frac :=
  (readings.foldl sleep_step_f sleep_init_f).1

/-- `sleep_breakdown` after the loop, as the doubles they are. -/
def sleep_breakdown_f (readings : List SleepRow) : FBreakdown :=
  (readings.foldl sleep_step_f sleep_init_f).2

/-- `find?` splits its list at the first hit. -/
theorem find_first_split {α : Type} {p : α → Bool} :
    ∀ (l : List α) (k : α), l.find? p = some k →
      ∃ l1 l2, l = l1 ++ k :: l2 ∧ ∀ a ∈ l1, p a = false := by
  intro l
  induction l with
  | nil => intro k h; cases h
  | cons a t ih =>
    intro k h
    by_cases hpa : p a = true
    · rw [List.find?_cons_of_pos _ hpa] at h
      injection h with h2
      subst h2
      exact ⟨[], t, rfl, by intro x hx; simp at hx⟩
    · rw [List.find?_cons_of_neg _ hpa] at h
      obtain ⟨l1, l2, heq, hall⟩ := ih k h
      refine ⟨a :: l1, l2, by rw [heq]; rfl, ?_⟩
      intro x hx
      rcases List.mem_cons.mp hx with h2 | h2
      · subst h2
        simpa using hpa
      · exact hall x h2

/-- Over `List.range`, `find?` returns an index no later than any index
satisfying the predicate. -/
theorem find_range_le {p : ℕ → Bool} {n k m : ℕ}
    (h : (List.range n).find? p = some k) (hm : m < n) (hpm : p m = true) : k ≤ m := by
  obtain ⟨l1, l2, hsplit, hall⟩ := find_first_split (List.range n) k h
  have hlen : l1.length < n := by
    have hlen2 := congrArg List.length hsplit
    simp only [List.length_range, List.length_append, List.length_cons] at hlen2
    omega
  have hk : k = l1.length := by
    have h1 : (List.range n)[l1.length]? = some k := by
      rw [hsplit, List.getElem?_append]
      simp
    rw [List.getElem?_range hlen] at h1
    exact (Option.some.inj h1).symm
  by_contra hgt
  push_neg at hgt
  have hm1 : (List.range n)[m]? = some m := List.getElem?_range hm
  have hm2 : l1[m]? = some m := by
    rw [hsplit, List.getElem?_append, if_pos (by omega)] at hm1
    exact hm1
  have hfalse := hall m (List.getElem?_mem hm2)
  rw [hpm] at hfalse
  simp at hfalse

/-- A double (as an unnormalised fraction) that holds the integer `n`
exactly. -/
def frel (f : Frac) (n : ℤ) : Prop := 0 < f.den ∧ f.num = n * f.den

/-- `rne` is exact on integer-valued fractions. -/
theorem rne_int {x : Frac} {n : ℤ} (hd : 0 < x.den) (hx : x.num = n * x.den) :
    rne x = n := by
  have hf : fFloor x = n := by
    rw [fFloor, hx]
    exact Int.mul_fdiv_cancel n (ne_of_gt hd)
  have hr : x.num - fFloor x * x.den = 0 := by rw [hf, hx]; ring
  simp only [rne]
  rw [hr, hf, if_pos (by omega)]

/-- `roundPos` is exact on integer-valued positive fractions below
`2 ^ 53`. -/
theorem roundPos_int {x : Frac} {n : ℤ} (hd : 0 < x.den) (hx : x.num = n * x.den)
    (_hn : 0 < n) (hb : n < 2 ^ 53) : frel (roundPos x) n := by
  have hp142 : (fun k : ℕ => fLT x (fPow2 ((k : ℤ) - 90 + 1))) 142 = true := by
    have h53 : fPow2 (((142 : ℕ) : ℤ) - 90 + 1) = ⟨(2 : ℤ) ^ 53, 1⟩ := by decide
    show fLT x (fPow2 (((142 : ℕ) : ℤ) - 90 + 1)) = true
    rw [h53]
    simp only [fLT, mul_one, decide_eq_true_eq]
    rw [hx]
    exact mul_lt_mul_of_pos_right hb hd
  have he : fLog2 x ≤ 52 := by
    unfold fLog2
    cases hfind : (List.range 181).find? (fun k : ℕ => fLT x (fPow2 ((k : ℤ) - 90 + 1))) with
    | none => exact absurd hp142 (List.find?_eq_none.mp hfind 142 (by simp))
    | some k0 =>
      have hk0 : k0 ≤ 142 := find_range_le hfind (by norm_num) hp142
      show (k0 : ℤ) - 90 ≤ 52
      omega
  have hg : fPow2 (fLog2 x - 52) = ⟨1, (2 : ℤ) ^ (52 - fLog2 x).toNat⟩ := by
    rcases lt_or_eq_of_le he with hlt | heq
    · rw [fPow2, if_neg (by omega), neg_sub]
    · rw [heq]
      decide
  have hP : (0 : ℤ) < 2 ^ (52 - fLog2 x).toNat := pow_pos (by norm_num) _
  have hrne : rne (fDiv x ⟨1, (2 : ℤ) ^ (52 - fLog2 x).toNat⟩) =
      n * 2 ^ (52 - fLog2 x).toNat := by
    refine rne_int ?_ ?_
    · show (0 : ℤ) < x.den * 1
      omega
    · show x.num * (2 : ℤ) ^ (52 - fLog2 x).toNat =
        n * 2 ^ (52 - fLog2 x).toNat * (x.den * 1)
      rw [hx]; ring
  simp only [roundPos, hg, hrne]
  refine ⟨?_, ?_⟩
  · show (0 : ℤ) < 1 * 2 ^ (52 - fLog2 x).toNat
    omega
  · show n * 2 ^ (52 - fLog2 x).toNat * 1 =
      n * (1 * 2 ^ (52 - fLog2 x).toNat)
    ring

/-- Binary64 rounding is the identity on integer values `0 ≤ n < 2 ^ 53`
(the doubles' exact integer range). -/
theorem roundDouble_int {x : Frac} {n : ℤ} (hd : 0 < x.den) (hx : x.num = n * x.den)
    (hn : 0 ≤ n) (hb : n < 2 ^ 53) : frel (roundDouble x) n := by
  rcases hn.eq_or_lt with h0 | hpos
  · have hnum : x.num = 0 := by rw [hx, ← h0, zero_mul]
    unfold roundDouble
    rw [if_pos hnum]
    exact ⟨by decide, by show (0 : ℤ) = n * 1; omega⟩
  · have hnum : 0 < x.num := by rw [hx]; exact mul_pos hpos hd
    unfold roundDouble
    rw [if_neg (by omega), if_neg (by omega)]
    exact roundPos_int hd hx hpos hb

/-- One Python `+=` of an integral double stays exact below `2 ^ 53`. -/
theorem pfAdd_int {f : Frac} {m v : ℤ} (h : frel f m) (hm : 0 ≤ m) (hv : 0 ≤ v)
    (hb : m + v < 2 ^ 53) : frel (pfAdd f (fOfInt v)) (m + v) := by
  obtain ⟨hd, hnum⟩ := h
  show frel (roundDouble (fAdd f (fOfInt v))) (m + v)
  refine roundDouble_int ?_ ?_ (by omega) hb
  · show (0 : ℤ) < f.den * 1
    omega
  · show f.num * 1 + v * f.den = (m + v) * (f.den * 1)
    rw [hnum]; ring

/-- The double loop state holds the integer loop state exactly. -/
def StateRel (af : Frac × FBreakdown) (ai : ℤ × SleepBreakdown) : Prop :=
  frel af.1 ai.1 ∧ frel af.2.deep_sleep ai.2.deep_sleep ∧
    frel af.2.light_sleep ai.2.light_sleep ∧ frel af.2.rem_sleep ai.2.rem_sleep ∧
    frel af.2.awake ai.2.awake

/-- All integer components nonnegative and bounded by `B`. -/
def StateLe (ai : ℤ × SleepBreakdown) (B : ℤ) : Prop :=
  (0 ≤ ai.1 ∧ ai.1 ≤ B) ∧ (0 ≤ ai.2.deep_sleep ∧ ai.2.deep_sleep ≤ B) ∧
    (0 ≤ ai.2.light_sleep ∧ ai.2.light_sleep ≤ B) ∧
    (0 ≤ ai.2.rem_sleep ∧ ai.2.rem_sleep ≤ B) ∧ (0 ≤ ai.2.awake ∧ ai.2.awake ≤ B)

/-- One loop iteration in double arithmetic tracks the integer iteration
exactly while every accumulator stays below `2 ^ 53`. -/
theorem sleep_step_f_rel {af : Frac × FBreakdown} {ai : ℤ × SleepBreakdown} {r : SleepRow}
    {B : ℤ} (hrel : StateRel af ai) (hle : StateLe ai B) (hv : 0 ≤ sleep_value r)
    (hb : B + sleep_value r < 2 ^ 53) :
    StateRel (sleep_step_f af r) (sleep_step ai r) := by
  obtain ⟨h1, h2, h3, h4, h5⟩ := hrel
  obtain ⟨⟨b1a, b1b⟩, ⟨b2a, b2b⟩, ⟨b3a, b3b⟩, ⟨b4a, b4b⟩, ⟨b5a, b5b⟩⟩ := hle
  refine ⟨?_, ?_, ?_, ?_, ?_⟩ <;>
    simp only [sleep_step_f, sleep_step] <;>
    split_ifs <;>
    (try dsimp only) <;>
    first
      | assumption
      | (apply pfAdd_int <;> first | assumption | omega)

/-- One integer loop iteration keeps the component bounds, raised by the
row's value. -/
theorem sleep_step_le {ai : ℤ × SleepBreakdown} {r : SleepRow} {B : ℤ}
    (hle : StateLe ai B) (hv : 0 ≤ sleep_value r) :
    StateLe (sleep_step ai r) (B + sleep_value r) := by
  obtain ⟨⟨b1a, b1b⟩, ⟨b2a, b2b⟩, ⟨b3a, b3b⟩, ⟨b4a, b4b⟩, ⟨b5a, b5b⟩⟩ := hle
  refine ⟨?_, ?_, ?_, ?_, ?_⟩ <;>
    simp only [sleep_step] <;>
    split_ifs <;>
    (try dsimp only) <;>
    exact ⟨by omega, by omega⟩

/-- The whole double fold tracks the integer fold exactly when the values
are nonnegative and, together with the bound on the starting state, total
below `2 ^ 53`. -/
theorem sleep_fold_f_rel :
    ∀ (rows : List SleepRow) (af : Frac × FBreakdown) (ai : ℤ × SleepBreakdown) (B : ℤ),
      (∀ r ∈ rows, 0 ≤ sleep_value r) → StateRel af ai → StateLe ai B →
      B + (rows.map sleep_value).sum < 2 ^ 53 →
      StateRel (rows.foldl sleep_step_f af) (rows.foldl sleep_step ai) := by
  intro rows
  induction rows with
  | nil => intro af ai B _ hrel _ _; exact hrel
  | cons r rs ih =>
    intro af ai B hnn hrel hle hb
    have hv : 0 ≤ sleep_value r := hnn r (List.mem_cons_self _ _)
    have hsum : 0 ≤ (rs.map sleep_value).sum := by
      refine List.sum_nonneg ?_
      intro x hx
      obtain ⟨y, hy, rfl⟩ := List.mem_map.mp hx
      exact hnn y (List.mem_cons_of_mem _ hy)
    simp only [List.map_cons, List.sum_cons] at hb
    rw [List.foldl_cons, List.foldl_cons]
    exact ih (sleep_step_f af r) (sleep_step ai r) (B + sleep_value r)
      (fun x hx => hnn x (List.mem_cons_of_mem _ hx))
      (sleep_step_f_rel hrel hle hv (by omega))
      (sleep_step_le hle hv) (by omega)

/-- A row with an unrecognised (or missing) level leaves the double loop
state unchanged too. -/
theorem sleep_step_f_unrecognised (acc : Frac × FBreakdown) (r : SleepRow)
    (h : recognised_level r = false) : sleep_step_f acc r = acc := by
  simp only [recognised_level, Bool.or_eq_false_iff, beq_eq_false_iff_ne, ne_eq] at h
  obtain ⟨⟨⟨h0, h1⟩, h2⟩, h3⟩ := h
  simp [sleep_step_f, h0, h1, h2, h3]

/-- Rows with unrecognised levels can be dropped without changing the
double fold. -/
theorem sleep_fold_f_filter (readings : List SleepRow) :
    ∀ acc, (readings.filter recognised_level).foldl sleep_step_f acc =
      readings.foldl sleep_step_f acc := by
  induction readings with
  | nil => intro acc; rfl
  | cons r rs ih =>
    intro acc
    by_cases h : recognised_level r
    · rw [List.filter_cons_of_pos h, List.foldl_cons, List.foldl_cons, ih]
    · rw [List.filter_cons_of_neg (by simpa using h), List.foldl_cons,
        sleep_step_f_unrecognised acc r (by simpa using h), ih]

/-- The exact sum of two integral doubles is the integral value of the
sum. -/
theorem frel_fAdd {a b : Frac} {m n : ℤ} (ha : frel a m) (hb : frel b n) :
    frel (fAdd a b) (m + n) := by
  obtain ⟨ha1, ha2⟩ := ha
  obtain ⟨hb1, hb2⟩ := hb
  refine ⟨?_, ?_⟩
  · show 0 < a.den * b.den
    positivity
  · show a.num * b.den + b.num * a.den = (m + n) * (a.den * b.den)
    rw [ha2, hb2]; ring

/-- Integral doubles of equal integers are value-equal. -/
theorem fEqv_of_frel {a b : Frac} {m n : ℤ} (ha : frel a m) (hb : frel b n)
    (h : m = n) : fEqv a b := by
  obtain ⟨ha1, ha2⟩ := ha
  obtain ⟨hb1, hb2⟩ := hb
  show a.num * b.den = b.num * a.den
  rw [ha2, hb2, h]; ring

/-- Integral doubles respect the order of their integers. -/
theorem fLeq_of_frel {a b : Frac} {m n : ℤ} (ha : frel a m) (hb : frel b n)
    (h : m ≤ n) : fLeq a b := by
  obtain ⟨ha1, ha2⟩ := ha
  obtain ⟨hb1, hb2⟩ := hb
  show a.num * b.den ≤ b.num * a.den
  rw [ha2, hb2]
  nlinarith [mul_le_mul_of_nonneg_right h (le_of_lt (mul_pos ha1 hb1))]

set_option maxRecDepth 20000 in
/-- C2 counterexample, both failure modes of the claimed invariant in the
program's double arithmetic: (i) a single stored value -60 at level 0 (the
nullable Float column admits it) enters the deep bucket but not the total,
so both the claimed equality and the claimed bound fail; (ii) even with
every value nonnegative the equality fails to rounding: a 10^16-minute
light row followed by two 1-minute deep rows leaves the running total at
10^16 — above 2^53 the doubles' grid step is 2, so each +1 is rounded
away — while deep+light+rem is 10^16 + 2. -/
theorem C2_sleep_total_counterexample :
    ¬(fEqv (total_sleep_minutes_f [⟨0, none, some (-60), some 0, 111⟩])
        (fAdd (fAdd (sleep_breakdown_f [⟨0, none, some (-60), some 0, 111⟩]).deep_sleep
            (sleep_breakdown_f [⟨0, none, some (-60), some 0, 111⟩]).light_sleep)
          (sleep_breakdown_f [⟨0, none, some (-60), some 0, 111⟩]).rem_sleep)
      ∧ fLeq (total_sleep_minutes_f [⟨0, none, some (-60), some 0, 111⟩])
        (fAdd (fAdd (fAdd (sleep_breakdown_f [⟨0, none, some (-60), some 0, 111⟩]).deep_sleep
            (sleep_breakdown_f [⟨0, none, some (-60), some 0, 111⟩]).light_sleep)
          (sleep_breakdown_f [⟨0, none, some (-60), some 0, 111⟩]).rem_sleep)
          (sleep_breakdown_f [⟨0, none, some (-60), some 0, 111⟩]).awake))
    ∧ (∀ r ∈ [(⟨0, none, some 10000000000000000, some 1, 111⟩ : SleepRow),
          ⟨0, none, some 1, some 0, 111⟩, ⟨0, none, some 1, some 0, 111⟩],
        0 ≤ sleep_value r)
    ∧ ¬ fEqv
        (total_sleep_minutes_f [⟨0, none, some 10000000000000000, some 1, 111⟩,
          ⟨0, none, some 1, some 0, 111⟩, ⟨0, none, some 1, some 0, 111⟩])
        (fAdd (fAdd (sleep_breakdown_f [⟨0, none, some 10000000000000000, some 1, 111⟩,
              ⟨0, none, some 1, some 0, 111⟩, ⟨0, none, some 1, some 0, 111⟩]).deep_sleep
            (sleep_breakdown_f [⟨0, none, some 10000000000000000, some 1, 111⟩,
              ⟨0, none, some 1, some 0, 111⟩, ⟨0, none, some 1, some 0, 111⟩]).light_sleep)
          (sleep_breakdown_f [⟨0, none, some 10000000000000000, some 1, 111⟩,
            ⟨0, none, some 1, some 0, 111⟩, ⟨0, none, some 1, some 0, 111⟩]).rem_sleep) := by
  decide

/-- C2 amended: whenever every row's stored value is a nonnegative integral
number of minutes and the values total below 2^53 (the doubles' exact
integer range — far beyond any physical sleep data, so every addition of
the loop is exact), `total_sleep_minutes` equals deep+light+rem exactly
(awake excluded), coincides with the exact integer aggregation, and is at
most the sum of all four stage buckets including awake; rows whose level is
missing or outside {0,1,2,3} contribute to neither the total nor the
breakdown. -/
theorem C2_sleep_total_invariant (readings : List SleepRow)
    (hnn : ∀ r ∈ readings, 0 ≤ sleep_value r)
    (hbound : (readings.map sleep_value).sum < 2 ^ 53) :
    fEqv (total_sleep_minutes_f readings)
      (fAdd (fAdd (sleep_breakdown_f readings).deep_sleep
          (sleep_breakdown_f readings).light_sleep)
        (sleep_breakdown_f readings).rem_sleep)
    ∧ fLeq (total_sleep_minutes_f readings)
      (fAdd (fAdd (fAdd (sleep_breakdown_f readings).deep_sleep
          (sleep_breakdown_f readings).light_sleep)
        (sleep_breakdown_f readings).rem_sleep)
        (sleep_breakdown_f readings).awake)
    ∧ fEqv (total_sleep_minutes_f readings) (fOfInt (total_sleep_minutes readings))
    ∧ total_sleep_minutes_f (readings.filter recognised_level) =
        total_sleep_minutes_f readings
    ∧ sleep_breakdown_f (readings.filter recognised_level) =
        sleep_breakdown_f readings := by
  have hrel : StateRel (readings.foldl sleep_step_f sleep_init_f)
      (readings.foldl sleep_step (0, ⟨0, 0, 0, 0⟩)) := by
    refine sleep_fold_f_rel readings sleep_init_f (0, ⟨0, 0, 0, 0⟩) 0 hnn
      ?_ ?_ (by simpa using hbound)
    · exact ⟨⟨by decide, by decide⟩, ⟨by decide, by decide⟩, ⟨by decide, by decide⟩,
        ⟨by decide, by decide⟩, ⟨by decide, by decide⟩⟩
    · exact ⟨⟨le_rfl, le_rfl⟩, ⟨le_rfl, le_rfl⟩, ⟨le_rfl, le_rfl⟩, ⟨le_rfl, le_rfl⟩,
        ⟨le_rfl, le_rfl⟩⟩
  obtain ⟨hT, hD, hL, hR, hA⟩ := hrel
  have hT2 : frel (total_sleep_minutes_f readings)
      (readings.foldl sleep_step (0, ⟨0, 0, 0, 0⟩)).1 := hT
  have hD2 : frel (sleep_breakdown_f readings).deep_sleep
      (readings.foldl sleep_step (0, ⟨0, 0, 0, 0⟩)).2.deep_sleep := hD
  have hL2 : frel (sleep_breakdown_f readings).light_sleep
      (readings.foldl sleep_step (0, ⟨0, 0, 0, 0⟩)).2.light_sleep := hL
  have hR2 : frel (sleep_breakdown_f readings).rem_sleep
      (readings.foldl sleep_step (0, ⟨0, 0, 0, 0⟩)).2.rem_sleep := hR
  have hA2 : frel (sleep_breakdown_f readings).awake
      (readings.foldl sleep_step (0, ⟨0, 0, 0, 0⟩)).2.awake := hA
  have hdelta : (readings.foldl sleep_step (0, ⟨0, 0, 0, 0⟩)).1 =
      (readings.foldl sleep_step (0, ⟨0, 0, 0, 0⟩)).2.deep_sleep +
        (readings.foldl sleep_step (0, ⟨0, 0, 0, 0⟩)).2.light_sleep +
        (readings.foldl sleep_step (0, ⟨0, 0, 0, 0⟩)).2.rem_sleep := by
    simpa using sleep_fold_delta readings (0, ⟨0, 0, 0, 0⟩) hnn
  have hawake : (0 : ℤ) ≤ (readings.foldl sleep_step (0, ⟨0, 0, 0, 0⟩)).2.awake := by
    simpa using sleep_fold_awake_mono readings (0, ⟨0, 0, 0, 0⟩) hnn
  refine ⟨?_, ?_, ?_, ?_, ?_⟩
  · exact fEqv_of_frel hT2 (frel_fAdd (frel_fAdd hD2 hL2) hR2) hdelta
  · refine fLeq_of_frel hT2 (frel_fAdd (frel_fAdd (frel_fAdd hD2 hL2) hR2) hA2) ?_
    omega
  · exact fEqv_of_frel hT2 ⟨by show (0 : ℤ) < 1; norm_num, (mul_one _).symm⟩ rfl
  · simp only [total_sleep_minutes_f]
    rw [sleep_fold_f_filter readings sleep_init_f]
  · simp only [sleep_breakdown_f]
    rw [sleep_fold_f_filter readings sleep_init_f]

set_option maxRecDepth 20000 in
/-- Witness for C2 at a concrete day of sleep rows. -/
theorem C2_sleep_total_invariant_witness :
    fEqv (total_sleep_minutes_f
        [⟨0, some "deep", some 60, some 0, 111⟩, ⟨0, some "light", some 240, some 1, 111⟩,
          ⟨0, some "rem", some 89, some 2, 111⟩, ⟨0, some "awake", some 17, some 3, 111⟩,
          ⟨0, none, some 5, none, 111⟩])
      (fAdd (fAdd (sleep_breakdown_f
            [⟨0, some "deep", some 60, some 0, 111⟩, ⟨0, some "light", some 240, some 1, 111⟩,
              ⟨0, some "rem", some 89, some 2, 111⟩, ⟨0, some "awake", some 17, some 3, 111⟩,
              ⟨0, none, some 5, none, 111⟩]).deep_sleep
          (sleep_breakdown_f
            [⟨0, some "deep", some 60, some 0, 111⟩, ⟨0, some "light", some 240, some 1, 111⟩,
              ⟨0, some "rem", some 89, some 2, 111⟩, ⟨0, some "awake", some 17, some 3, 111⟩,
              ⟨0, none, some 5, none, 111⟩]).light_sleep)
        (sleep_breakdown_f
          [⟨0, some "deep", some 60, some 0, 111⟩, ⟨0, some "light", some 240, some 1, 111⟩,
            ⟨0, some "rem", some 89, some 2, 111⟩, ⟨0, some "awake", some 17, some 3, 111⟩,
            ⟨0, none, some 5, none, 111⟩]).rem_sleep) :=
  (C2_sleep_total_invariant _ (by decide) (by decide)).1

/-! ### The engine: `get_specific_reading_value`
(`dal/services/medical_readings_service.py`, lines 45-134) -/

/-- A non-sleep reading row: superset of the per-type model columns the
engine reads (glucose/hrv/spo2/stress use `value`; blood pressure
`systolic` and `diastolic`; body temperature `temperature`). `timestamp`
is epoch seconds. The value columns are nullable in every per-type model,
so they are optional here. -/
structure Reading where
  timestamp : ℤ
  value : Option ℤ
  systolic : Option ℤ
  diastolic : Option ℤ
  temperature : Option ℤ
  patient_id : ℤ
deriving DecidableEq

/-- The reading store, one table per supported type. The `activity` table
(`dal/models/activity_readings.py`) has neither the `timestamp` nor the
`value` column the engine reads, so it has no row model here: every
activity query takes the `getattr` exception path. -/
structure Db where
  users : List User
  glucose : List Reading
  blood_pressure : List Reading
  body_temperature : List Reading
  hrv : List Reading
  spo2 : List Reading
  stress : List Reading
  sleep : List SleepRow

/-- The keys of `model_map` (lines 23-43). -/
def model_map_keys : List String :=
  ["glucose", "blood_pressure", "body_temperature", "hrv", "spo2", "stress", "sleep", "activity"]

/-- The six standard (row-returning) reading types. -/
def standard_types : List String :=
  ["glucose", "blood_pressure", "body_temperature", "hrv", "spo2", "stress"]

/-- The table a standard reading type queries. -/
def standard_table (db : Db) (rt : String) : List Reading :=
  if rt = "glucose" then db.glucose
  else if rt = "blood_pressure" then db.blood_pressure
  else if rt = "body_temperature" then db.body_temperature
  else if rt = "hrv" then db.hrv
  else if rt = "spo2" then db.spo2
  else db.stress

/-- `_get_value_field` (lines 308-315). -/
def _get_value_field (reading_type : String) : String :=
  if reading_type = "blood_pressure" then "systolic"
  else if reading_type = "body_temperature" then "temperature"
  else "value"

/-- `getattr(row, field)` for the value fields of a standard row: the raw
nullable column value. -/
def reading_field (r : Reading) (f : String) : Option ℤ :=
  if f = "systolic" then r.systolic
  else if f = "temperature" then r.temperature
  else r.value

/-- A standard row's value field as an `ORDER BY` key; SQL sorts NULLs
below every value (first under ascending order, last under descending
order), the same convention `sleep_sort_value` models for the sleep
table. -/
def reading_sort_key (r : Reading) (f : String) : WithBot ℤ :=
  match reading_field r f with
  | none => ⊥
  | some v => (v : WithBot ℤ)

/-- The `value` column of a sleep row as a sort key; SQL sorts NULLs below
every value. -/
def sleep_sort_value (r : SleepRow) : WithBot ℤ :=
  match r.value with
  | none => ⊥
  | some v => (v : WithBot ℤ)

/-- Lines 91-102 on an epoch timestamp: `cast(sqlalchemy.Time)` is the
time of day `t % 86400` in seconds. -/
def time_range_pass_epoch (time_range : Option String) (reading_type : String) (t : ℤ) : Bool :=
  match time_range with
  | none => true
  | some tr =>
    if tr.data.isEmpty then true
    else if reading_type = "sleep" then true
    else if pyLower tr = "morning" ∨ pyLower tr = "am" then
      decide (6 * 3600 ≤ t % 86400) && decide (t % 86400 ≤ 12 * 3600)
    else if pyLower tr = "night" ∨ pyLower tr = "evening" ∨ pyLower tr = "pm" then
      decide (18 * 3600 ≤ t % 86400) && decide (t % 86400 ≤ 23 * 3600 + 59 * 60)
    else true

/-- Days from a civil date in the proleptic Gregorian calendar
(the standard era-based civil-to-days conversion). -/
def days_from_civil (y : ℤ) (m d : ℕ) : ℤ :=
  let y2 : ℤ := if m ≤ 2 then y - 1 else y
  let era : ℤ := Int.fdiv y2 400
  let yoe : ℤ := y2 - era * 400
  let mp : ℤ := if 2 < m then (m : ℤ) - 3 else (m : ℤ) + 9
  let doy : ℤ := Int.fdiv (153 * mp + 2) 5 + (d : ℤ) - 1
  let doe : ℤ := yoe * 365 + Int.fdiv yoe 4 - Int.fdiv yoe 100 + doy
  era * 146097 + doe - 719468

/-- Epoch seconds of a naive civil datetime. -/
def epoch_of_civil (t : CivilDT) : ℤ :=
  days_from_civil t.year t.month t.day * 86400 +
    (t.hour : ℤ) * 3600 + (t.minute : ℤ) * 60 + (t.second : ℤ)

/-- Lines 64-102: the time-window part of the row filter. A specific
instant gives the closed window `[instant - 1h, instant + 1h]`; a date
filter gives the month window (closed) or the half-open day window
`[midnight, midnight + 1 day)` plus the time-range narrowing. -/
def row_time_pass (specific_time : Option ℤ) (date_filter : Option CivilDT)
    (month_filter : Bool) (time_range : Option String) (reading_type : String)
    (t : ℤ) : Bool :=
  match specific_time with
  | some st => decide (st - 3600 ≤ t) && decide (t ≤ st + 3600)
  | none =>
    match date_filter with
    | some df =>
      (if month_filter then
          decide (epoch_of_civil (month_window df).1 ≤ t) &&
            decide (t ≤ epoch_of_civil (month_window df).2)
        else
          decide (epoch_of_civil df ≤ t) && decide (t < epoch_of_civil df + 86400))
        && time_range_pass_epoch time_range reading_type t
    | none => true

/-- The arguments of `get_specific_reading_value` (line 45-48). -/
structure QueryArgs where
  patient_id : Option ℤ
  patient_name : Option String
  reading_type : String
  specific_time : Option ℤ
  date_filter : Option CivilDT
  time_range : Option String
  analysis_type : String
  limit : ℕ
  month_filter : Bool
deriving DecidableEq

/-- The structured result shapes the engine returns: the `{"error": ...}`
payload, the standard readings payload (lines 236-243), or the sleep
payload (lines 179-199; the derived hour fields and the summary sentence
are presentation-only and omitted). -/
inductive EngineResult
  | err (msg : String)
  | standard (patient_id : ℤ) (reading_type : String) (analysis_type : String)
      (readings : List Reading) (count : ℕ) (message : String)
  | sleepRes (patient_id : ℤ) (date_filter : Option CivilDT) (total_sleep_records : ℕ)
      (total_sleep_minutes : ℤ) (breakdown : SleepBreakdown) (total_sleep_duration : String)
deriving DecidableEq

/-- Lines 104-123 for a standard (non-sleep) type: highest/lowest order by
the value field and truncate to `limit`; otherwise order by timestamp
descending and take 1 for `specific`, else `limit`. -/
def select_standard (rows : List Reading) (reading_type analysis_type : String)
    (limit : ℕ) : List Reading :=
  if analysis_type = "highest" then
    (List.insertionSort (byDesc (fun r => reading_sort_key r (_get_value_field reading_type))) rows).take limit
  else if analysis_type = "lowest" then
    (List.insertionSort (byAsc (fun r => reading_sort_key r (_get_value_field reading_type))) rows).take limit
  else
    let ordered := List.insertionSort (byDesc (fun r => r.timestamp)) rows
    if analysis_type = "specific" then ordered.take 1 else ordered.take limit

/-- Lines 104-123 for the sleep type: highest/lowest order by the nullable
`value` column and truncate to `limit`; every other analysis type takes
ALL rows ordered by date descending. -/
def select_sleep (rows : List SleepRow) (analysis_type : String) (limit : ℕ) : List SleepRow :=
  if analysis_type = "highest" then
    (List.insertionSort (byDesc sleep_sort_value) rows).take limit
  else if analysis_type = "lowest" then
    (List.insertionSort (byAsc sleep_sort_value) rows).take limit
  else
    List.insertionSort (byDesc (fun r => r.date)) rows

/-- `_process_standard_readings` (lines 216-243): the readings list with its
count and message. -/
def _process_standard_readings (readings : List Reading) (patient_id : ℤ)
    (reading_type analysis_type : String) : EngineResult :=
  let c := readings.length
  .standard patient_id reading_type analysis_type readings c
    (if analysis_type = "highest" ∨ analysis_type = "lowest" then
      s!"Found {c} {analysis_type} {reading_type} readings"
    else s!"Found {c} {reading_type} readings")

/-- `_process_sleep_data` (lines 136-199): record count, aggregated total,
per-stage breakdown and the rendered duration. -/
def _process_sleep_data (readings : List SleepRow) (patient_id : ℤ)
    (date_filter : Option CivilDT) : EngineResult :=
  .sleepRes patient_id date_filter readings.length (total_sleep_minutes readings)
    (sleep_breakdown readings) (total_sleep_duration (total_sleep_minutes readings))

/-- Line 52: the resolved patient id the query runs under. -/
def resolved_pid (db : Db) (q : QueryArgs) : ℤ :=
  (find_patient_by_name_or_id db.users q.patient_id q.patient_name).getD 0

/-- Lines 62-102 for a standard type: the type's table filtered by patient
and resolved time window. -/
def window_rows (db : Db) (q : QueryArgs) : List Reading :=
  (standard_table db q.reading_type).filter fun r =>
    r.patient_id == resolved_pid db q &&
      row_time_pass q.specific_time q.date_filter q.month_filter q.time_range
        q.reading_type r.timestamp

/-- Lines 62-102 for the sleep type: the sleep table filtered by patient
and resolved time window (the timestamp field is `date`). -/
def sleep_window_rows (db : Db) (q : QueryArgs) : List SleepRow :=
  db.sleep.filter fun r =>
    r.patient_id == resolved_pid db q &&
      row_time_pass q.specific_time q.date_filter q.month_filter q.time_range "sleep" r.date

/-- `get_specific_reading_value` (lines 45-134): resolve the patient,
validate the reading type, filter the type's table by patient and window,
select rows per the analysis type, and process them. An `activity` query
reaches `getattr(model, "timestamp")`, which raises, and the outer handler
returns the `Database error` payload. -/
def get_specific_reading_value (db : Db) (q : QueryArgs) : EngineResult :=
  if truthyId (find_patient_by_name_or_id db.users q.patient_id q.patient_name) = false then
    .err "Patient not found"
  else if q.reading_type ∉ model_map_keys then
    .err ("Invalid reading type: " ++ q.reading_type)
  else if q.reading_type = "activity" then
    .err "Database error: type object ActivityReadings has no attribute timestamp"
  else if q.reading_type = "sleep" then
    _process_sleep_data (select_sleep (sleep_window_rows db q) q.analysis_type q.limit)
      (resolved_pid db q) q.date_filter
  else
    _process_standard_readings
      (select_standard (window_rows db q) q.reading_type q.analysis_type q.limit)
      (resolved_pid db q) q.reading_type q.analysis_type

/-- `SpecificMedicalValueTool._run`, `analysis_type == "specific"` branch
(`tools/specific_medical_value_tool.py`, lines 191-203): among the
readings the service returned, keep the one whose timestamp is closest to
the requested instant (`min` keeps the first minimiser). -/
def closest_reading (readings : List Reading) (st : ℤ) : Option Reading :=
  match readings with
  | [] => none
  | r :: rs =>
    some (rs.foldl (fun best x => if |x.timestamp - st| < |best.timestamp - st| then x else best) r)

/-- The composed tool behaviour for a specific-instant query: run the
engine, then apply the tool's closest-reading selection. -/
def tool_specific_result (db : Db) (q : QueryArgs) (st : ℤ) : Option Reading :=
  match get_specific_reading_value db q with
  | .standard _ _ _ readings _ _ => closest_reading readings st
  | _ => none

set_option maxRecDepth 20000 in
/-- C1: the engine restricts rows to the closed one-hour window but then
returns only the latest row (order by timestamp descending, limit 1), so
the tool's closest-reading `min` runs on a singleton: at instant 10:00:00
(epoch 36000) with glucose readings at 09:55:00 (35700) and 10:50:00
(39000), the pipeline returns the 10:50:00 reading, 3000 s from the
instant, although the 09:55:00 reading lies in the window only 300 s
away — not the minimum-absolute-difference reading the spec describes. -/
theorem C1_specific_returns_latest_not_closest :
    tool_specific_result
        ⟨[⟨7, "Anna", "Smith"⟩],
          [⟨35700, some 100, none, none, none, 7⟩, ⟨39000, some 110, none, none, none, 7⟩],
          [], [], [], [], [], []⟩
        ⟨some 7, none, "glucose", some 36000, none, none, "specific", 10, false⟩ 36000 =
      some ⟨39000, some 110, none, none, none, 7⟩
    ∧ ((36000 : ℤ) - 3600 ≤ 35700 ∧ (35700 : ℤ) ≤ 36000 + 3600)
    ∧ |(35700 : ℤ) - 36000| < |(39000 : ℤ) - 36000| := by
  decide

/-- The per-row contribution to `total_sleep_minutes`. -/
def total_contrib (r : SleepRow) : ℤ :=
  if 0 < sleep_value r ∧ (r.level = some 0 ∨ r.level = some 1 ∨ r.level = some 2) then
    sleep_value r
  else 0

/-- The per-row contribution to the breakdown buckets. -/
def breakdown_contrib (r : SleepRow) : SleepBreakdown :=
  ⟨if r.level = some 0 then sleep_value r else 0,
    if r.level = some 1 then sleep_value r else 0,
    if r.level = some 2 then sleep_value r else 0,
    if r.level = some 3 then sleep_value r else 0⟩

/-- `sleep_step` acts by adding each row's contributions. -/
theorem sleep_step_eq (acc : ℤ × SleepBreakdown) (r : SleepRow) :
    sleep_step acc r =
      (acc.1 + total_contrib r,
        ⟨acc.2.deep_sleep + (breakdown_contrib r).deep_sleep,
          acc.2.light_sleep + (breakdown_contrib r).light_sleep,
          acc.2.rem_sleep + (breakdown_contrib r).rem_sleep,
          acc.2.awake + (breakdown_contrib r).awake⟩) := by
  simp only [sleep_step, total_contrib, breakdown_contrib]
  split_ifs <;> simp_all

instance : RightCommutative sleep_step :=
  ⟨fun acc r s => by
    rw [sleep_step_eq, sleep_step_eq, sleep_step_eq, sleep_step_eq]
    simp only [Prod.mk.injEq, SleepBreakdown.mk.injEq]
    refine ⟨by ring, by ring, by ring, by ring, by ring⟩⟩

/-- `_process_sleep_data` only depends on the multiset of its input rows. -/
theorem process_sleep_perm {l1 l2 : List SleepRow} (hp : l1.Perm l2)
    (pid : ℤ) (df : Option CivilDT) :
    _process_sleep_data l1 pid df = _process_sleep_data l2 pid df := by
  have hlen := hp.length_eq
  have hfold : List.foldl sleep_step ((0 : ℤ), (⟨0, 0, 0, 0⟩ : SleepBreakdown)) l1 =
      List.foldl sleep_step ((0 : ℤ), (⟨0, 0, 0, 0⟩ : SleepBreakdown)) l2 :=
    hp.foldl_eq _
  simp [_process_sleep_data, total_sleep_minutes, sleep_breakdown, hlen, hfold]

set_option maxRecDepth 20000 in
/-- C3 counterexample: a sleep query with `analysis_type="highest"` and
`limit=1` over two window rows (60 deep minutes and 30 light minutes)
aggregates only the single value-sorted top row: the result reports 1
record and 60 total minutes though the window holds 2 rows totalling 90 —
the fetch is NOT unbounded regardless of analysis mode. -/
theorem C3_sleep_fetch_truncated_counterexample :
    get_specific_reading_value
        ⟨[⟨7, "Anna", "Smith"⟩], [], [], [], [], [], [],
          [⟨1000, some "deep", some 60, some 0, 7⟩, ⟨2000, some "light", some 30, some 1, 7⟩]⟩
        ⟨some 7, none, "sleep", none, none, none, "highest", 1, false⟩ =
      .sleepRes 7 none 1 60 ⟨60, 0, 0, 0⟩ "1 hours"
    ∧ (sleep_window_rows
        ⟨[⟨7, "Anna", "Smith"⟩], [], [], [], [], [], [],
          [⟨1000, some "deep", some 60, some 0, 7⟩, ⟨2000, some "light", some 30, some 1, 7⟩]⟩
        ⟨some 7, none, "sleep", none, none, none, "highest", 1, false⟩).length = 2 := by
  decide

/-- C3 amended: for every sleep query whose analysis mode is NOT highest or
lowest (specific, latest, or any other value), the aggregation consumes
every row of the resolved window — the result equals processing the full
filtered row set and is invariant under the caller-supplied limit. With
mode highest or lowest, the rows are value-sorted and truncated to the
limit before aggregation (see the counterexample). -/
theorem C3_sleep_fetch_unbounded_amended (db : Db) (q : QueryArgs)
    (hrt : q.reading_type = "sleep")
    (ha1 : q.analysis_type ≠ "highest") (ha2 : q.analysis_type ≠ "lowest")
    (hpid : truthyId (find_patient_by_name_or_id db.users q.patient_id q.patient_name) = true) :
    get_specific_reading_value db q =
      _process_sleep_data (sleep_window_rows db q) (resolved_pid db q) q.date_filter
    ∧ ∀ l : ℕ, get_specific_reading_value db { q with limit := l } =
        get_specific_reading_value db q := by
  obtain ⟨qpid, qname, qrt, qst, qdf, qtr, qat, qlim, qmf⟩ := q
  simp only at hrt ha1 ha2 hpid ⊢
  subst hrt
  have key : ∀ l : ℕ,
      get_specific_reading_value db ⟨qpid, qname, "sleep", qst, qdf, qtr, qat, l, qmf⟩ =
        _process_sleep_data
          (sleep_window_rows db ⟨qpid, qname, "sleep", qst, qdf, qtr, qat, qlim, qmf⟩)
          (resolved_pid db ⟨qpid, qname, "sleep", qst, qdf, qtr, qat, qlim, qmf⟩) qdf := by
    intro l
    have hwin : sleep_window_rows db ⟨qpid, qname, "sleep", qst, qdf, qtr, qat, l, qmf⟩ =
        sleep_window_rows db ⟨qpid, qname, "sleep", qst, qdf, qtr, qat, qlim, qmf⟩ := rfl
    have hpidq : resolved_pid db ⟨qpid, qname, "sleep", qst, qdf, qtr, qat, l, qmf⟩ =
        resolved_pid db ⟨qpid, qname, "sleep", qst, qdf, qtr, qat, qlim, qmf⟩ := rfl
    simp only [get_specific_reading_value, hpid, model_map_keys, select_sleep, ha1, ha2,
      hwin, hpidq]
    simp only [Bool.true_eq_false, if_false, List.mem_cons, List.mem_singleton]
    norm_num
    exact process_sleep_perm (List.perm_insertionSort _ _) _ _
  constructor
  · have h := key qlim
    simpa using h
  · intro l
    rw [key l, ← key qlim]

set_option maxRecDepth 20000 in
/-- Witness for C3 at a two-row window with the default specific mode. -/
theorem C3_sleep_fetch_unbounded_amended_witness :
    get_specific_reading_value
        ⟨[⟨7, "Anna", "Smith"⟩], [], [], [], [], [], [],
          [⟨1000, some "deep", some 60, some 0, 7⟩, ⟨2000, some "light", some 30, some 1, 7⟩]⟩
        ⟨some 7, none, "sleep", none, none, none, "specific", 1, false⟩ =
      _process_sleep_data
        (sleep_window_rows
          ⟨[⟨7, "Anna", "Smith"⟩], [], [], [], [], [], [],
            [⟨1000, some "deep", some 60, some 0, 7⟩, ⟨2000, some "light", some 30, some 1, 7⟩]⟩
          ⟨some 7, none, "sleep", none, none, none, "specific", 1, false⟩)
        (resolved_pid
          ⟨[⟨7, "Anna", "Smith"⟩], [], [], [], [], [], [],
            [⟨1000, some "deep", some 60, some 0, 7⟩, ⟨2000, some "light", some 30, some 1, 7⟩]⟩
          ⟨some 7, none, "sleep", none, none, none, "specific", 1, false⟩)
        none :=
  (C3_sleep_fetch_unbounded_amended _ _ rfl (by decide) (by decide) (by decide)).1

/-- Does the engine result carry a readings row list (the standard shape)? -/
def returns_rows : EngineResult → Bool
  | .standard _ _ _ _ _ _ => true
  | _ => false

/-- The count field of a standard result. -/
def engine_count : EngineResult → Option ℕ
  | .standard _ _ _ _ c _ => some c
  | _ => none

/-- Total minutes and record count of a sleep result. -/
def sleep_totals : EngineResult → Option (ℤ × ℕ)
  | .sleepRes _ _ n total _ _ => some (total, n)
  | _ => none

/-- Is the result the `{"error": ...}` payload? -/
def is_err : EngineResult → Bool
  | .err _ => true
  | _ => false

/-- A standard type is a valid model key and is neither sleep nor activity. -/
theorem standard_type_facts {rt : String} (h : rt ∈ standard_types) :
    rt ∈ model_map_keys ∧ rt ≠ "sleep" ∧ rt ≠ "activity" := by
  simp only [standard_types, List.mem_cons, List.mem_singleton, List.not_mem_nil, or_false] at h
  rcases h with h | h | h | h | h | h <;> subst h <;>
    exact ⟨by decide, by decide, by decide⟩

set_option maxRecDepth 20000 in
/-- C5 counterexample: running mode=highest on the sleep reading type does
not return rows sorted by a value field at all — the engine value-sorts,
truncates, and aggregates, returning the sleep payload with no readings
list. -/
theorem C5_sleep_highest_counterexample :
    get_specific_reading_value
        ⟨[⟨7, "Anna", "Smith"⟩], [], [], [], [], [], [],
          [⟨1000, some "deep", some 45, some 0, 7⟩]⟩
        ⟨some 7, none, "sleep", none, none, none, "highest", 10, false⟩ =
      .sleepRes 7 none 1 45 ⟨45, 0, 0, 0⟩ "0 hours and 45 minutes"
    ∧ returns_rows
        (get_specific_reading_value
          ⟨[⟨7, "Anna", "Smith"⟩], [], [], [], [], [], [],
            [⟨1000, some "deep", some 45, some 0, 7⟩]⟩
          ⟨some 7, none, "sleep", none, none, none, "highest", 10, false⟩) = false := by
  decide

/-- C5 amended: for every patient and window and every standard (non-sleep,
non-activity) reading type, mode=highest returns the rows sorted descending
by the type's value field (systolic for blood pressure, temperature for
body temperature, value otherwise) under SQL NULL ordering — a NULL value
sorts below every number, so NULL rows come last in descending order and
first in ascending order — truncated to the limit, with the first returned
element attaining the maximum value-field key of the full unfiltered window
row set; mode=lowest is the ascending/minimum counterpart, whose head is a
NULL-valued row whenever the window contains one. -/
theorem C5_highest_lowest_amended (db : Db) (q : QueryArgs)
    (hrt : q.reading_type ∈ standard_types)
    (hpid : truthyId (find_patient_by_name_or_id db.users q.patient_id q.patient_name) = true) :
    (q.analysis_type = "highest" →
      get_specific_reading_value db q =
        _process_standard_readings
          ((List.insertionSort (byDesc fun r => reading_sort_key r (_get_value_field q.reading_type))
            (window_rows db q)).take q.limit)
          (resolved_pid db q) q.reading_type q.analysis_type
      ∧ List.Sorted (byDesc fun r => reading_sort_key r (_get_value_field q.reading_type))
          ((List.insertionSort (byDesc fun r => reading_sort_key r (_get_value_field q.reading_type))
            (window_rows db q)).take q.limit)
      ∧ ((List.insertionSort (byDesc fun r => reading_sort_key r (_get_value_field q.reading_type))
            (window_rows db q)).take q.limit).length = min q.limit (window_rows db q).length
      ∧ (window_rows db q ≠ [] → 0 < q.limit →
          ∃ m, ((List.insertionSort
                (byDesc fun r => reading_sort_key r (_get_value_field q.reading_type))
                (window_rows db q)).take q.limit).head? = some m
            ∧ m ∈ window_rows db q
            ∧ ∀ y ∈ window_rows db q,
                reading_sort_key y (_get_value_field q.reading_type) ≤
                  reading_sort_key m (_get_value_field q.reading_type)))
    ∧ (q.analysis_type = "lowest" →
      get_specific_reading_value db q =
        _process_standard_readings
          ((List.insertionSort (byAsc fun r => reading_sort_key r (_get_value_field q.reading_type))
            (window_rows db q)).take q.limit)
          (resolved_pid db q) q.reading_type q.analysis_type
      ∧ List.Sorted (byAsc fun r => reading_sort_key r (_get_value_field q.reading_type))
          ((List.insertionSort (byAsc fun r => reading_sort_key r (_get_value_field q.reading_type))
            (window_rows db q)).take q.limit)
      ∧ ((List.insertionSort (byAsc fun r => reading_sort_key r (_get_value_field q.reading_type))
            (window_rows db q)).take q.limit).length = min q.limit (window_rows db q).length
      ∧ (window_rows db q ≠ [] → 0 < q.limit →
          ∃ m, ((List.insertionSort
                (byAsc fun r => reading_sort_key r (_get_value_field q.reading_type))
                (window_rows db q)).take q.limit).head? = some m
            ∧ m ∈ window_rows db q
            ∧ ∀ y ∈ window_rows db q,
                reading_sort_key m (_get_value_field q.reading_type) ≤
                  reading_sort_key y (_get_value_field q.reading_type))) := by
  obtain ⟨hkeys, hns, hna⟩ := standard_type_facts hrt
  constructor
  · intro ha
    refine ⟨?_, sorted_take (List.sorted_insertionSort _ _) _, ?_, ?_⟩
    · simp [get_specific_reading_value, hpid, hkeys, hna, hns, select_standard, ha]
    · rw [List.length_take, (List.perm_insertionSort _ _).length_eq]
    · intro hne hlim
      obtain ⟨m, hm⟩ := head_isSome_of_perm
        (List.perm_insertionSort
          (byDesc fun r => reading_sort_key r (_get_value_field q.reading_type))
          (window_rows db q)) hne
      obtain ⟨hmem, hmax⟩ := sortDesc_head_max _ _ _ hm
      exact ⟨m, by rw [head_take _ hlim]; exact hm, hmem, hmax⟩
  · intro ha
    refine ⟨?_, sorted_take (List.sorted_insertionSort _ _) _, ?_, ?_⟩
    · simp [get_specific_reading_value, hpid, hkeys, hna, hns, select_standard, ha]
    · rw [List.length_take, (List.perm_insertionSort _ _).length_eq]
    · intro hne hlim
      obtain ⟨m, hm⟩ := head_isSome_of_perm
        (List.perm_insertionSort
          (byAsc fun r => reading_sort_key r (_get_value_field q.reading_type))
          (window_rows db q)) hne
      obtain ⟨hmem, hmin⟩ := sortAsc_head_min _ _ _ hm
      exact ⟨m, by rw [head_take _ hlim]; exact hm, hmem, hmin⟩

set_option maxRecDepth 20000 in
/-- Witness for C5: a highest query over two glucose rows. -/
theorem C5_highest_lowest_amended_witness :
    get_specific_reading_value
        ⟨[⟨7, "Anna", "Smith"⟩], [⟨100, some 95, none, none, none, 7⟩, ⟨200, none, none, none, none, 7⟩],
          [], [], [], [], [], []⟩
        ⟨some 7, none, "glucose", none, none, none, "highest", 10, false⟩ =
      _process_standard_readings
        ((List.insertionSort (byDesc fun r => reading_sort_key r (_get_value_field "glucose"))
          (window_rows
            ⟨[⟨7, "Anna", "Smith"⟩], [⟨100, some 95, none, none, none, 7⟩, ⟨200, none, none, none, none, 7⟩],
              [], [], [], [], [], []⟩
            ⟨some 7, none, "glucose", none, none, none, "highest", 10, false⟩)).take 10)
        (resolved_pid
          ⟨[⟨7, "Anna", "Smith"⟩], [⟨100, some 95, none, none, none, 7⟩, ⟨200, none, none, none, none, 7⟩],
            [], [], [], [], [], []⟩
          ⟨some 7, none, "glucose", none, none, none, "highest", 10, false⟩)
        "glucose" "highest" :=
  ((C5_highest_lowest_amended _ _ (by decide) (by decide)).1 rfl).1

/-- C9: a well-formed query over the embedded engine never yields the error
payload: the error shape arises exactly when the patient is unresolvable,
the reading type is unknown, or the query hits the exception path (the
activity table lacking the queried columns — the infrastructure-failure
shape). A resolvable query whose window holds zero rows returns the
success shape: count 0 with its message for standard types, total 0 with
0 records for sleep. -/
theorem C9_zero_rows_success_shape (db : Db) (q : QueryArgs) :
    (is_err (get_specific_reading_value db q) = true ↔
      (truthyId (find_patient_by_name_or_id db.users q.patient_id q.patient_name) = false
        ∨ q.reading_type ∉ model_map_keys ∨ q.reading_type = "activity"))
    ∧ (truthyId (find_patient_by_name_or_id db.users q.patient_id q.patient_name) = true →
        q.reading_type ∈ standard_types → window_rows db q = [] →
        get_specific_reading_value db q =
          _process_standard_readings [] (resolved_pid db q) q.reading_type q.analysis_type
        ∧ engine_count (get_specific_reading_value db q) = some 0)
    ∧ (truthyId (find_patient_by_name_or_id db.users q.patient_id q.patient_name) = true →
        q.reading_type = "sleep" → sleep_window_rows db q = [] →
        get_specific_reading_value db q =
          _process_sleep_data [] (resolved_pid db q) q.date_filter
        ∧ sleep_totals (get_specific_reading_value db q) = some (0, 0)) := by
  refine ⟨?_, ?_, ?_⟩
  · by_cases h1 : truthyId (find_patient_by_name_or_id db.users q.patient_id q.patient_name) = false
    · simp [get_specific_reading_value, h1, is_err]
    · have h1t : truthyId (find_patient_by_name_or_id db.users q.patient_id q.patient_name) = true := by
        simpa using h1
      by_cases h2 : q.reading_type ∈ model_map_keys
      · by_cases h3 : q.reading_type = "activity"
        · simp [get_specific_reading_value, h1t, h2, h3, is_err, model_map_keys]
        · by_cases h4 : q.reading_type = "sleep"
          · simp [get_specific_reading_value, h1t, h2, h3, h4, is_err, model_map_keys,
              _process_sleep_data]
          · simp [get_specific_reading_value, h1t, h2, h3, h4, is_err,
              _process_standard_readings]
      · simp [get_specific_reading_value, h1t, h2, is_err]
  · intro h1 h2 h3
    obtain ⟨hkeys, hns, hna⟩ := standard_type_facts h2
    have heq : get_specific_reading_value db q =
        _process_standard_readings [] (resolved_pid db q) q.reading_type q.analysis_type := by
      have hsel : ∀ a lim, select_standard [] q.reading_type a lim = [] := by
        intro a lim
        simp only [select_standard]
        split_ifs <;> simp [List.insertionSort]
      simp [get_specific_reading_value, h1, hkeys, hna, hns, h3, hsel]
    refine ⟨heq, ?_⟩
    rw [heq]
    simp [engine_count, _process_standard_readings]
  · intro h1 h2 h3
    have heq : get_specific_reading_value db q =
        _process_sleep_data [] (resolved_pid db q) q.date_filter := by
      have hkeys : q.reading_type ∈ model_map_keys := by rw [h2]; decide
      have hna : q.reading_type ≠ "activity" := by rw [h2]; decide
      have hsel : ∀ a lim, select_sleep [] a lim = [] := by
        intro a lim
        simp only [select_sleep]
        split_ifs <;> simp [List.insertionSort]
      simp [get_specific_reading_value, h1, hkeys, hna, h2, h3, hsel, model_map_keys]
    refine ⟨heq, ?_⟩
    rw [heq]
    simp [sleep_totals, _process_sleep_data, total_sleep_minutes, sleep_breakdown]

/-- Witness for C9: a valid glucose query over an empty store. -/
theorem C9_zero_rows_success_shape_witness :
    engine_count
        (get_specific_reading_value ⟨[], [], [], [], [], [], [], []⟩
          ⟨some 7, none, "glucose", none, none, none, "specific", 5, false⟩) = some 0 :=
  ((C9_zero_rows_success_shape ⟨[], [], [], [], [], [], [], []⟩
      ⟨some 7, none, "glucose", none, none, none, "specific", 5, false⟩).2.1
    (by decide) (by decide) rfl).2

/-! ### Cross-patient threshold grouping: `_group_readings_by_patient`
(`dal/services/medical_readings_service.py`, lines 317-370) -/

/-- A qualifying row of the cross-patient threshold scan. The rows
`get_high_low_readings` hands to the grouper have already passed the SQL
comparison `value_field > threshold` (resp. `<`, lines 283-286), which no
NULL value satisfies, so the value columns are total on this path. -/
structure ThresholdRow where
  timestamp : ℤ
  value : ℤ
  systolic : ℤ
  diastolic : ℤ
  temperature : ℤ
  patient_id : ℤ
deriving DecidableEq

/-- `getattr(row, field)` on a qualifying threshold row. -/
def threshold_field (r : ThresholdRow) (f : String) : ℤ :=
  if f = "systolic" then r.systolic
  else if f = "temperature" then r.temperature
  else r.value

/-- One per-patient bucket (lines 332-341). `readings` holds the
`(timestamp, value)` display entries; the blood-pressure diastolic
auxiliary entry is presentation-only and omitted. -/
structure PatientGroup where
  patient_id : ℤ
  patient_name : String
  reading_type : String
  readings : List (ℤ × ℤ)
  highest_value : ℤ
  lowest_value : ℤ
  total_readings : ℕ
  readings_shown : ℕ
deriving DecidableEq

/-- Lines 343-355: the in-place update of the matching bucket — append the
reading entry, bump the count, refresh the extremes. -/
def group_update (reading_type : String) (ru : ThresholdRow × User)
    (g : PatientGroup) : PatientGroup :=
  let value := threshold_field ru.1 (_get_value_field reading_type)
  if g.patient_id == ru.2.id then
    { g with
      readings := g.readings ++ [(ru.1.timestamp, value)],
      total_readings := g.total_readings + 1,
      highest_value := if g.highest_value < value then value else g.highest_value,
      lowest_value := if value < g.lowest_value then value else g.lowest_value }
  else g

/-- One iteration of the `for reading, user in results` loop (lines
321-355): create the patient's bucket on first sight (insertion order, as
a Python dict), then append the reading and update count and extremes. -/
def group_step (reading_type : String) (groups : List PatientGroup)
    (ru : ThresholdRow × User) : List PatientGroup :=
  let value := threshold_field ru.1 (_get_value_field reading_type)
  let pid := ru.2.id
  let groups2 :=
    if groups.any (fun g => g.patient_id == pid) then groups
    else groups ++
      [⟨pid, ru.2.first_name ++ " " ++ ru.2.last_name, reading_type, [], value, value, 0, 0⟩]
  groups2.map (group_update reading_type ru)

/-- Lines 357-362: cap the displayed readings at 5. -/
def cap_group (g : PatientGroup) : PatientGroup :=
  { g with readings := g.readings.take 5, readings_shown := (g.readings.take 5).length }

/-- `_group_readings_by_patient` (lines 317-370): fold the join results
into insertion-ordered patient buckets, cap each displayed list at 5, and
sort by the per-patient extreme value (descending for "high", ascending
otherwise). -/
def _group_readings_by_patient (results : List (ThresholdRow × User))
    (reading_type find_type : String) : List PatientGroup :=
  if find_type = "high" then
    List.insertionSort (byDesc fun g => g.highest_value)
      ((results.foldl (group_step reading_type) []).map cap_group)
  else
    List.insertionSort (byAsc fun g => g.lowest_value)
      ((results.foldl (group_step reading_type) []).map cap_group)

/-- A bucket correctly describes the rows of its patient within `done`:
its count and display list are exactly those rows in order, and its
extremes are attained bounds over their values. -/
def GroupDescribes (rt : String) (done : List (ThresholdRow × User))
    (g : PatientGroup) : Prop :=
  g.total_readings = (done.filter (fun ru => ru.2.id == g.patient_id)).length
  ∧ g.readings = (done.filter (fun ru => ru.2.id == g.patient_id)).map
      (fun ru => (ru.1.timestamp, threshold_field ru.1 (_get_value_field rt)))
  ∧ (∃ ru ∈ done, ru.2.id = g.patient_id ∧
      threshold_field ru.1 (_get_value_field rt) = g.highest_value)
  ∧ (∀ ru ∈ done, ru.2.id = g.patient_id →
      threshold_field ru.1 (_get_value_field rt) ≤ g.highest_value)
  ∧ (∃ ru ∈ done, ru.2.id = g.patient_id ∧
      threshold_field ru.1 (_get_value_field rt) = g.lowest_value)
  ∧ (∀ ru ∈ done, ru.2.id = g.patient_id →
      g.lowest_value ≤ threshold_field ru.1 (_get_value_field rt))

/-- The loop invariant of the grouping fold: every bucket describes its
patient's processed rows, and a bucket exists exactly for the patients
seen so far. -/
def GroupsInv (rt : String) (done : List (ThresholdRow × User))
    (groups : List PatientGroup) : Prop :=
  (∀ g ∈ groups, GroupDescribes rt done g)
  ∧ (∀ pid : ℤ, (∃ g ∈ groups, g.patient_id = pid) ↔ ∃ ru ∈ done, ru.2.id = pid)

/-- Appending a row of a different patient leaves a bucket's description
intact (the update is the identity on it). -/
theorem GroupDescribes.untouched {rt : String} {done : List (ThresholdRow × User)}
    {g : PatientGroup} {ru : ThresholdRow × User}
    (h : GroupDescribes rt done g) (hne : g.patient_id ≠ ru.2.id) :
    GroupDescribes rt (done ++ [ru]) g := by
  obtain ⟨h1, h2, h3, h4, h5, h6⟩ := h
  have hpr : (ru.2.id == g.patient_id) = false := by
    simpa using fun hh => hne hh.symm
  have hfil : (done ++ [ru]).filter (fun x => x.2.id == g.patient_id) =
      done.filter (fun x => x.2.id == g.patient_id) := by
    rw [List.filter_append]
    simp [List.filter, hpr]
  refine ⟨by rw [hfil]; exact h1, by rw [hfil]; exact h2, ?_, ?_, ?_, ?_⟩
  · obtain ⟨x, hx, hid, hval⟩ := h3
    exact ⟨x, List.mem_append_left _ hx, hid, hval⟩
  · intro x hx hid
    rcases List.mem_append.mp hx with hx2 | hx2
    · exact h4 x hx2 hid
    · rw [List.mem_singleton] at hx2; subst hx2; exact absurd hid.symm hne
  · obtain ⟨x, hx, hid, hval⟩ := h5
    exact ⟨x, List.mem_append_left _ hx, hid, hval⟩
  · intro x hx hid
    rcases List.mem_append.mp hx with hx2 | hx2
    · exact h6 x hx2 hid
    · rw [List.mem_singleton] at hx2; subst hx2; exact absurd hid.symm hne

/-- Appending a row of the bucket's own patient updates the description:
one more counted row, one more display entry, extremes refreshed. -/
theorem GroupDescribes.touched {rt : String} {done : List (ThresholdRow × User)}
    {g : PatientGroup} {ru : ThresholdRow × User}
    (h : GroupDescribes rt done g) (hpid : g.patient_id = ru.2.id) :
    GroupDescribes rt (done ++ [ru]) (group_update rt ru g) := by
  obtain ⟨h1, h2, h3, h4, h5, h6⟩ := h
  have hbeq : (g.patient_id == ru.2.id) = true := by simp [hpid]
  have hpr : (ru.2.id == g.patient_id) = true := by simp [hpid.symm]
  have hfil : (done ++ [ru]).filter (fun x => x.2.id == g.patient_id) =
      done.filter (fun x => x.2.id == g.patient_id) ++ [ru] := by
    rw [List.filter_append]
    simp [List.filter, hpr]
  simp only [group_update, hbeq, if_true]
  refine ⟨?_, ?_, ?_, ?_, ?_, ?_⟩
  · simp [hfil, h1]
  · simp [hfil]
    exact h2
  · by_cases hlt : g.highest_value < threshold_field ru.1 (_get_value_field rt)
    · exact ⟨ru, by simp, hpid.symm, by simp [hlt]⟩
    · obtain ⟨x, hx, hid, hval⟩ := h3
      exact ⟨x, List.mem_append_left _ hx, hid, by simp [hlt, hval]⟩
  · intro x hx hid
    by_cases hlt : g.highest_value < threshold_field ru.1 (_get_value_field rt) <;>
      rcases List.mem_append.mp hx with hx2 | hx2 <;>
        simp only [hlt, if_true, if_false, ite_true, ite_false]
    · exact le_of_lt (lt_of_le_of_lt (h4 x hx2 hid) hlt)
    · rw [List.mem_singleton] at hx2; subst hx2; exact le_rfl
    · exact h4 x hx2 hid
    · rw [List.mem_singleton] at hx2; subst hx2; exact le_of_not_lt hlt
  · by_cases hlt : threshold_field ru.1 (_get_value_field rt) < g.lowest_value
    · exact ⟨ru, by simp, hpid.symm, by simp [hlt]⟩
    · obtain ⟨x, hx, hid, hval⟩ := h5
      exact ⟨x, List.mem_append_left _ hx, hid, by simp [hlt, hval]⟩
  · intro x hx hid
    by_cases hlt : threshold_field ru.1 (_get_value_field rt) < g.lowest_value <;>
      rcases List.mem_append.mp hx with hx2 | hx2 <;>
        simp only [hlt, if_true, if_false, ite_true, ite_false]
    · exact le_of_lt (lt_of_lt_of_le hlt (h6 x hx2 hid))
    · rw [List.mem_singleton] at hx2; subst hx2; exact le_rfl
    · exact h6 x hx2 hid
    · rw [List.mem_singleton] at hx2; subst hx2; exact le_of_not_lt hlt

/-- A freshly created bucket, immediately updated with its first row,
describes that single row. -/
theorem fresh_group_describes {rt : String} {done : List (ThresholdRow × User)}
    {ru : ThresholdRow × User} (hnone : ∀ x ∈ done, x.2.id ≠ ru.2.id) :
    GroupDescribes rt (done ++ [ru])
      (group_update rt ru
        ⟨ru.2.id, ru.2.first_name ++ " " ++ ru.2.last_name, rt, [],
          threshold_field ru.1 (_get_value_field rt),
          threshold_field ru.1 (_get_value_field rt), 0, 0⟩) := by
  have hfil : (done ++ [ru]).filter (fun x => x.2.id == ru.2.id) = [ru] := by
    rw [List.filter_append]
    have hdone : done.filter (fun x => x.2.id == ru.2.id) = [] :=
      List.filter_eq_nil_iff.mpr fun x hx => by simp [hnone x hx]
    simp [hdone]
  simp only [group_update, beq_self_eq_true, if_true]
  refine ⟨?_, ?_, ?_, ?_, ?_, ?_⟩
  · simp [hfil]
  · simp [hfil]
  · exact ⟨ru, by simp, rfl, by simp⟩
  · intro x hx hid
    rcases List.mem_append.mp hx with hx2 | hx2
    · exact absurd hid (hnone x hx2)
    · rw [List.mem_singleton] at hx2; subst hx2; simp
  · exact ⟨ru, by simp, rfl, by simp⟩
  · intro x hx hid
    rcases List.mem_append.mp hx with hx2 | hx2
    · exact absurd hid (hnone x hx2)
    · rw [List.mem_singleton] at hx2; subst hx2; simp

/-- The update never changes a bucket's patient id. -/
theorem group_update_pid (rt : String) (ru : ThresholdRow × User) (g : PatientGroup) :
    (group_update rt ru g).patient_id = g.patient_id := by
  simp only [group_update]
  split_ifs <;> rfl

/-- One loop iteration preserves the grouping invariant. -/
theorem group_step_inv {rt : String} {done : List (ThresholdRow × User)}
    {groups : List PatientGroup} {ru : ThresholdRow × User}
    (h : GroupsInv rt done groups) :
    GroupsInv rt (done ++ [ru]) (group_step rt groups ru) := by
  obtain ⟨hprops, hcov⟩ := h
  by_cases hany : groups.any (fun g => g.patient_id == ru.2.id) = true
  · have hstep : group_step rt groups ru = groups.map (group_update rt ru) := by
      simp only [group_step, hany, if_true]
    rw [hstep]
    constructor
    · intro g' hg'
      obtain ⟨g, hg, rfl⟩ := List.mem_map.mp hg'
      by_cases hpid : g.patient_id = ru.2.id
      · exact (hprops g hg).touched hpid
      · have hupd : group_update rt ru g = g := by
          simp only [group_update]
          rw [if_neg (by simpa using hpid)]
        rw [hupd]
        exact (hprops g hg).untouched hpid
    · intro pid
      constructor
      · rintro ⟨g', hg', hid⟩
        obtain ⟨g, hg, rfl⟩ := List.mem_map.mp hg'
        rw [group_update_pid] at hid
        obtain ⟨x, hx, hxid⟩ := (hcov pid).mp ⟨g, hg, hid⟩
        exact ⟨x, List.mem_append_left _ hx, hxid⟩
      · rintro ⟨x, hx, hxid⟩
        rcases List.mem_append.mp hx with hx2 | hx2
        · obtain ⟨g, hg, hid⟩ := (hcov pid).mpr ⟨x, hx2, hxid⟩
          exact ⟨group_update rt ru g, List.mem_map_of_mem _ hg,
            by rw [group_update_pid]; exact hid⟩
        · rw [List.mem_singleton] at hx2
          rw [hx2] at hxid
          obtain ⟨g, hg, hgid⟩ := List.any_eq_true.mp hany
          refine ⟨group_update rt ru g, List.mem_map_of_mem _ hg, ?_⟩
          rw [group_update_pid]
          rw [← hxid]
          exact beq_iff_eq.mp hgid
  · have hnog : ∀ g ∈ groups, g.patient_id ≠ ru.2.id := by
      intro g hg hgid
      exact hany (List.any_eq_true.mpr ⟨g, hg, by simp [hgid]⟩)
    have hnone : ∀ x ∈ done, x.2.id ≠ ru.2.id := by
      intro x hx hxid
      obtain ⟨g, hg, hgid⟩ := (hcov ru.2.id).mpr ⟨x, hx, hxid⟩
      exact hnog g hg hgid
    have hstep : group_step rt groups ru =
        groups.map (group_update rt ru) ++
          [group_update rt ru
            ⟨ru.2.id, ru.2.first_name ++ " " ++ ru.2.last_name, rt, [],
              threshold_field ru.1 (_get_value_field rt),
              threshold_field ru.1 (_get_value_field rt), 0, 0⟩] := by
      have hany2 : (groups.any fun g => g.patient_id == ru.2.id) = false := by
        simpa using hany
      simp [group_step, hany2]
    have hmapid : groups.map (group_update rt ru) = groups := by
      rw [List.map_congr_left fun g hg => ?_, List.map_id]
      simp only [group_update]
      rw [if_neg (by simpa using hnog g hg)]
      rfl
    rw [hstep, hmapid]
    constructor
    · intro g' hg'
      rcases List.mem_append.mp hg' with hg2 | hg2
      · exact (hprops g' hg2).untouched (hnog g' hg2)
      · rw [List.mem_singleton] at hg2
        subst hg2
        exact fresh_group_describes hnone
    · intro pid
      constructor
      · rintro ⟨g', hg', hid⟩
        rcases List.mem_append.mp hg' with hg2 | hg2
        · obtain ⟨x, hx, hxid⟩ := (hcov pid).mp ⟨g', hg2, hid⟩
          exact ⟨x, List.mem_append_left _ hx, hxid⟩
        · rw [List.mem_singleton] at hg2
          rw [hg2] at hid
          rw [group_update_pid] at hid
          exact ⟨ru, by simp, hid⟩
      · rintro ⟨x, hx, hxid⟩
        rcases List.mem_append.mp hx with hx2 | hx2
        · obtain ⟨g, hg, hid⟩ := (hcov pid).mpr ⟨x, hx2, hxid⟩
          exact ⟨g, List.mem_append_left _ hg, hid⟩
        · rw [List.mem_singleton] at hx2
          rw [hx2] at hxid
          refine ⟨group_update rt ru
            ⟨ru.2.id, ru.2.first_name ++ " " ++ ru.2.last_name, rt, [],
              threshold_field ru.1 (_get_value_field rt),
              threshold_field ru.1 (_get_value_field rt), 0, 0⟩, by simp, ?_⟩
          rw [group_update_pid]
          exact hxid

/-- The grouping fold establishes the invariant over any processed tail. -/
theorem groups_fold_inv (rt : String) (results : List (ThresholdRow × User)) :
    ∀ done groups, GroupsInv rt done groups →
      GroupsInv rt (done ++ results) (results.foldl (group_step rt) groups) := by
  induction results with
  | nil => intro done groups h; simpa using h
  | cons ru rs ih =>
    intro done groups h
    have h2 := @group_step_inv rt done groups ru h
    have h3 := ih (done ++ [ru]) _ h2
    simpa using h3

/-- C4: every displayed group holds at most 5 reading entries, while its
total count and both extremes are computed over ALL of that patient's
qualifying rows; the final group list is sorted by extreme value
descending in high mode (by each patient's highest) and ascending in low
mode (by each patient's lowest). -/
theorem C4_threshold_grouping (results : List (ThresholdRow × User)) (rt ft : String) :
    (∀ g ∈ _group_readings_by_patient results rt ft,
      g.readings.length ≤ 5
      ∧ g.total_readings = (results.filter (fun ru => ru.2.id == g.patient_id)).length
      ∧ (∃ ru ∈ results, ru.2.id = g.patient_id ∧
          threshold_field ru.1 (_get_value_field rt) = g.highest_value)
      ∧ (∀ ru ∈ results, ru.2.id = g.patient_id →
          threshold_field ru.1 (_get_value_field rt) ≤ g.highest_value)
      ∧ (∃ ru ∈ results, ru.2.id = g.patient_id ∧
          threshold_field ru.1 (_get_value_field rt) = g.lowest_value)
      ∧ (∀ ru ∈ results, ru.2.id = g.patient_id →
          g.lowest_value ≤ threshold_field ru.1 (_get_value_field rt)))
    ∧ (ft = "high" → List.Sorted (byDesc fun g => g.highest_value)
        (_group_readings_by_patient results rt ft))
    ∧ (ft = "low" → List.Sorted (byAsc fun g => g.lowest_value)
        (_group_readings_by_patient results rt ft)) := by
  have hinv := groups_fold_inv rt results [] [] ⟨by simp, by simp⟩
  rw [List.nil_append] at hinv
  obtain ⟨hdesc, hcov⟩ := hinv
  refine ⟨?_, ?_, ?_⟩
  · intro g' hg'
    have hg2 : g' ∈ (results.foldl (group_step rt) []).map cap_group := by
      unfold _group_readings_by_patient at hg'
      by_cases hft : ft = "high"
      · rw [if_pos hft] at hg'
        exact (List.perm_insertionSort _ _).mem_iff.mp hg'
      · rw [if_neg hft] at hg'
        exact (List.perm_insertionSort _ _).mem_iff.mp hg'
    obtain ⟨g, hg, rfl⟩ := List.mem_map.mp hg2
    obtain ⟨ht, hr, hxm, hbm, hxl, hbl⟩ := hdesc g hg
    refine ⟨?_, ?_, ?_, ?_, ?_, ?_⟩
    · simp [cap_group]
    · simpa [cap_group] using ht
    · simpa [cap_group] using hxm
    · simpa [cap_group] using hbm
    · simpa [cap_group] using hxl
    · simpa [cap_group] using hbl
  · intro hft
    unfold _group_readings_by_patient
    rw [if_pos hft]
    exact List.sorted_insertionSort _ _
  · intro hft
    unfold _group_readings_by_patient
    rw [hft, if_neg (by decide)]
    exact List.sorted_insertionSort _ _

/-- The concrete store for the C4 witness: patient 1 has seven qualifying
glucose rows, patient 2 has one with a higher value. -/
def c4_example_results : List (ThresholdRow × User) :=
  [(⟨1, 181, 0, 0, 0, 1⟩, ⟨1, "Anna", "Smith"⟩),
   (⟨2, 182, 0, 0, 0, 1⟩, ⟨1, "Anna", "Smith"⟩),
   (⟨3, 183, 0, 0, 0, 1⟩, ⟨1, "Anna", "Smith"⟩),
   (⟨4, 184, 0, 0, 0, 1⟩, ⟨1, "Anna", "Smith"⟩),
   (⟨5, 185, 0, 0, 0, 1⟩, ⟨1, "Anna", "Smith"⟩),
   (⟨6, 186, 0, 0, 0, 1⟩, ⟨1, "Anna", "Smith"⟩),
   (⟨7, 187, 0, 0, 0, 1⟩, ⟨1, "Anna", "Smith"⟩),
   (⟨8, 190, 0, 0, 0, 2⟩, ⟨2, "Bob", "Jones"⟩)]

/-- Witness for C4: the patient-1 group displays 5 readings yet reports
all 7 qualifying rows in its total. -/
theorem C4_threshold_grouping_witness :
    (⟨1, "Anna Smith", "glucose", [(1, 181), (2, 182), (3, 183), (4, 184), (5, 185)],
        187, 181, 7, 5⟩ : PatientGroup).total_readings =
      (c4_example_results.filter
        (fun ru => ru.2.id ==
          (⟨1, "Anna Smith", "glucose", [(1, 181), (2, 182), (3, 183), (4, 184), (5, 185)],
            187, 181, 7, 5⟩ : PatientGroup).patient_id)).length :=
  ((C4_threshold_grouping c4_example_results "glucose" "high").1 _ (by decide)).2.1

end Aiss
